import Mathlib

/-!
# Daily Folder: hierarchy resolver and tree navigator

A shallow embedding of the collection logic of `src/bootstrap.js`
(`formatDateYYYYMMDD`, `ensureCollection`, `findCollectionPath`,
`gotoDateCollection`, `refreshExisting`) together with the host interfaces
that code consumes: the collection store (`Zotero.Collections`,
`Zotero.Collection`) and the collection tree view of the active pane.

Conventions of the embedding.

* JavaScript `async`/`await` code runs on one sequential timeline, so every
  function is a state transformer on the store (and, for navigation, on the
  tree view).
* A JavaScript exception is the `Except.error` branch of the result; the
  store that comes back with it is the store at the moment of the throw.
* `log` only writes to the debug console and has its own `try`/`catch`; it is
  left out.
* Collection ids handed out by the host are positive integers, so the test
  `if (parentID)` is a test for the presence of a parent: `parentID` is an
  `Option Nat` and the test is a match on it.
-/

namespace DailyFolder

deriving instance DecidableEq for Except

/-! ## The collection store -/

/-- A collection object of the host: `id`, `name`, `parentID`, `libraryID`. -/
structure Collection where
  id : Nat
  name : String
  parentID : Option Nat
  libraryID : Nat
deriving DecidableEq, Repr

/-- The host store. `colls` are the persisted collections in creation order.
Every call into the store takes one `tick`; the call numbered `t` throws
exactly when `t ∈ faults`. `saveCalls` counts the calls of `saveTx`. -/
structure Store where
  colls : List Collection
  tick : Nat
  faults : List Nat
  saveCalls : Nat
deriving DecidableEq, Repr

/-- The store without collections in which no call throws. -/
def Store.empty : Store := ⟨[], 0, [], 0⟩

/-- The id the store gives to the next collection it persists. -/
def freshId (cs : List Collection) : Nat :=
  cs.foldr (fun c m => max c.id m) 0 + 1

/-- Host call `Zotero.Collections.getByLibrary(libraryID)`: the top-level
(parentless) collections of a library. -/
def getByLibrary (s : Store) (libraryID : Nat) : Except String (List Collection) × Store :=
  (if s.tick ∈ s.faults then .error "getByLibrary failed"
    else .ok (s.colls.filter fun c => c.libraryID = libraryID ∧ c.parentID = none),
    { s with tick := s.tick + 1 })

/-- Host call `Zotero.Collections.getByParent(parentID)`: the collections
whose parent is `parentID`. -/
def getByParent (s : Store) (parentID : Nat) : Except String (List Collection) × Store :=
  (if s.tick ∈ s.faults then .error "getByParent failed"
    else .ok (s.colls.filter fun c => c.parentID = some parentID),
    { s with tick := s.tick + 1 })

/-- Host call `coll.getChildCollections()`: the children of `coll`. -/
def getChildCollections (s : Store) (coll : Collection) :
    Except String (List Collection) × Store :=
  (if s.tick ∈ s.faults then .error "getChildCollections failed"
    else .ok (s.colls.filter fun c => c.parentID = some coll.id),
    { s with tick := s.tick + 1 })

/-- Host calls `new Z.Collection()`, the three field assignments and
`collection.saveTx()`: on success the new collection is persisted under a
fresh id; a failing transaction persists nothing. -/
def saveTx (s : Store) (name : String) (libraryID : Nat) (parentID : Option Nat) :
    Except String Collection × Store :=
  if s.tick ∈ s.faults then
    (.error "saveTx failed", { s with tick := s.tick + 1, saveCalls := s.saveCalls + 1 })
  else
    (.ok ⟨freshId s.colls, name, parentID, libraryID⟩,
      { s with
        colls := s.colls ++ [⟨freshId s.colls, name, parentID, libraryID⟩]
        tick := s.tick + 1
        saveCalls := s.saveCalls + 1 })

/-! ## `ensureCollection` (bootstrap.js 690-722) -/

/-- The `// Create if missing` block of `ensureCollection`. -/
def createCollection (s : Store) (name : String) (parentID : Option Nat) (libraryID : Nat) :
    Except String Collection × Store :=
  match saveTx s name libraryID parentID with
  | (.ok collection, s1) => (.ok collection, s1)
  | (.error _, s1) => (.error ("无法创建 collection: " ++ name), s1)

/-- The lookup of the `// Find existing` block: the store call chosen by
`if (parentID)`. -/
def lookupSiblings (s : Store) (parentID : Option Nat) (libraryID : Nat) :
    Except String (List Collection) × Store :=
  match parentID with
  | some p => getByParent s p
  | none => getByLibrary s libraryID

/-- Function `ensureCollection(win, name, parentID, libraryID)`. -/
def ensureCollection (s : Store) (name : String) (parentID : Option Nat) (libraryID : Nat) :
    Except String Collection × Store :=
  match lookupSiblings s parentID libraryID with
  | (.ok collections, s1) =>
    match collections.find? (fun c => c.name = name) with
    | some existing => (.ok existing, s1)
    | none => createCollection s1 name parentID libraryID
  | (.error _, s1) => createCollection s1 name parentID libraryID

/-! ## Date strings -/

/-- JavaScript `str.split('-')` on the characters of a string. -/
def splitDash : List Char → List (List Char)
  | [] => [[]]
  | c :: cs =>
    if c = '-' then [] :: splitDash cs
    else
      match splitDash cs with
      | [] => [[c]]
      | p :: ps => (c :: p) :: ps

/-- The array `dateStr.split('-')`. -/
def splitDate (dateStr : String) : List String :=
  (splitDash dateStr.data).map String.mk

/-- The `year` of `const [year, month] = dateStr.split('-')`. -/
def yearOf (dateStr : String) : String :=
  (splitDate dateStr).headD ""

/-- The template string of `monthStr`: year, a dash, and `month`; a missing
array element is `undefined` and prints as such. -/
def monthStrOf (dateStr : String) : String :=
  yearOf dateStr ++ "-" ++ (splitDate dateStr).getD 1 "undefined"

/-! ## `findCollectionPath` (bootstrap.js 725-746) -/

/-- Function `findCollectionPath(win, dateStr, libraryID)`; `rootName` is the
value `getPrefString` returned. `none` is the JavaScript `null`. -/
def findCollectionPath (s : Store) (rootName dateStr : String) (libraryID : Nat) :
    Except String (Option (List Collection)) × Store :=
  match getByLibrary s libraryID with
  | (.error e, s1) => (.error e, s1)
  | (.ok all, s1) =>
    match all.filter (fun c => c.parentID = none ∧ c.name = rootName) with
    | [] => (.ok none, s1)
    | rootColl :: _ =>
      match getChildCollections s1 rootColl with
      | (.error e, s2) => (.error e, s2)
      | (.ok years, s2) =>
        match years.find? (fun c => c.name = yearOf dateStr) with
        | none => (.ok none, s2)
        | some yearColl =>
          match getChildCollections s2 yearColl with
          | (.error e, s3) => (.error e, s3)
          | (.ok months, s3) =>
            match months.find? (fun c => c.name = monthStrOf dateStr) with
            | none => (.ok none, s3)
            | some monthColl =>
              match getChildCollections s3 monthColl with
              | (.error e, s4) => (.error e, s4)
              | (.ok days, s4) =>
                match days.find? (fun c => c.name = dateStr) with
                | none => (.ok none, s4)
                | some dayColl => (.ok (some [rootColl, yearColl, monthColl, dayColl]), s4)

/-! ## `formatDateYYYYMMDD` (bootstrap.js 50-53) and the segment names -/

/-- The fields of a JavaScript `Date` that the formatter reads:
`getFullYear()`, `getMonth()` (0-based) and `getDate()`. -/
structure JsDate where
  fullYear : Int
  month : Nat
  date : Nat
deriving DecidableEq, Repr

/-- The arrow function `pad` of `formatDateYYYYMMDD`. -/
def pad (n : Nat) : String :=
  if n < 10 then "0" ++ toString n else "" ++ toString n

/-- Function `formatDateYYYYMMDD(d)`. -/
def formatDateYYYYMMDD (d : JsDate) : String :=
  toString d.fullYear ++ "-" ++ pad (d.month + 1) ++ "-" ++ pad d.date

/-- The four names `gotoDateCollection` hands to `ensureCollection`
(bootstrap.js 764-771), top-down. -/
def pathSegments (rootName dateStr : String) : List String :=
  [rootName, yearOf dateStr, monthStrOf dateStr, dateStr]

/-- The path model of a calendar date: the date string is the one
`formatDateYYYYMMDD` produces and the segments are derived from it the way
`gotoDateCollection` does. -/
def derivePath (d : JsDate) (rootLabel : String) : List String :=
  pathSegments rootLabel (formatDateYYYYMMDD d)

/-- The regular expression `/^\d{4}-\d{2}-\d{2}$/` of `refreshExisting`. -/
def isDateName (name : String) : Bool :=
  match name.data with
  | [y1, y2, y3, y4, d1, m1, m2, d2, t1, t2] =>
    y1.isDigit && y2.isDigit && y3.isDigit && y4.isDigit && d1 == '-' &&
      m1.isDigit && m2.isDigit && d2 == '-' && t1.isDigit && t2.isDigit
  | _ => false

/-! ## The collection tree view -/

/-- One row of the collection tree. `item` is what
`pane.getSelectedCollection()` gives while the row is selected (nothing for a
library header or another row that is not a collection), `level` is the depth
of the row in the tree. -/
structure Row where
  item : Option Collection
  level : Nat
  isContainer : Bool
  isOpen : Bool
deriving DecidableEq, Repr

/-- The tree view. `rows` are all rows of the tree in depth-first order,
displayed or not: the descendants of a row follow it with a larger level, and
they are displayed only while the row is open. `selected` is the index of the
selected displayed row. -/
structure TreeView where
  rows : List Row
  selected : Option Nat
deriving DecidableEq, Repr

/-- Whether a row of depth `level` lies under the closed row of depth `hide`. -/
def hiddenBy (hide : Option Nat) (level : Nat) : Bool :=
  match hide with
  | some l => decide (l < level)
  | none => false

/-- The displayed rows: the rows that have no closed ancestor. -/
def visible : Option Nat → List Row → List Row
  | _, [] => []
  | hide, r :: rs =>
    if hiddenBy hide r.level then visible hide rs
    else r :: visible (if r.isOpen then none else some r.level) rs

/-- Flip the open state of the displayed row number `i`. -/
def toggleAt : Option Nat → List Row → Nat → List Row
  | _, [], _ => []
  | hide, r :: rs, i =>
    if hiddenBy hide r.level then r :: toggleAt hide rs i
    else
      match i with
      | 0 => { r with isOpen := !r.isOpen } :: rs
      | j + 1 => r :: toggleAt (if r.isOpen then none else some r.level) rs j

/-- View property `view.rowCount`. -/
def TreeView.rowCount (v : TreeView) : Nat := (visible none v.rows).length

/-- The displayed row number `i`. -/
def TreeView.row? (v : TreeView) (i : Nat) : Option Row := (visible none v.rows)[i]?

/-- View call `view.selection.select(i)`. -/
def TreeView.select (v : TreeView) (i : Nat) : TreeView := { v with selected := some i }

/-- Pane call `pane.getSelectedCollection()`. -/
def TreeView.getSelectedCollection (v : TreeView) : Option Collection :=
  match v.selected with
  | some i => (v.row? i).bind Row.item
  | none => none

/-- View call `view.isContainer(i)`. -/
def TreeView.isContainer (v : TreeView) (i : Nat) : Bool :=
  match v.row? i with
  | some r => r.isContainer
  | none => false

/-- View call `view.isContainerOpen(i)`. -/
def TreeView.isContainerOpen (v : TreeView) (i : Nat) : Bool :=
  match v.row? i with
  | some r => r.isOpen
  | none => false

/-- View call `view.toggleOpenState(i)`. -/
def TreeView.toggleOpenState (v : TreeView) (i : Nat) : TreeView :=
  { v with rows := toggleAt none v.rows i }

/-! ## `gotoDateCollection` (bootstrap.js 748-831) -/

/-- The `for` loop of `findAndExpandByName` from index `i` on; `fuel` bounds
the number of iterations. The result `some i` is `{ found: true, index: i }`
and `none` is `{ found: false, index: -1 }`. -/
def findAndExpandLoop (name : String) : Nat → TreeView → Nat → TreeView × Option Nat
  | 0, v, _ => (v, none)
  | fuel + 1, v, i =>
    if i < v.rowCount then
      match (v.select i).getSelectedCollection with
      | some item =>
        if item.name = name then
          if (v.select i).isContainer i && !(v.select i).isContainerOpen i then
            ((v.select i).toggleOpenState i, some i)
          else ((v.select i), some i)
        else findAndExpandLoop name fuel (v.select i) (i + 1)
      | none => findAndExpandLoop name fuel (v.select i) (i + 1)
    else (v, none)

/-- The closure `findAndExpandByName(name, startIndex)`: the loop runs at most
`rowCount - startIndex` times. -/
def findAndExpandByName (v : TreeView) (name : String) (startIndex : Nat) :
    TreeView × Option Nat :=
  findAndExpandLoop name (v.rowCount - startIndex) v startIndex

/-- The `for` loop over the final target (bootstrap.js 811-818): `true` when
a row of that name was selected. -/
def selectFinalLoop (name : String) : Nat → TreeView → Nat → TreeView × Bool
  | 0, v, _ => (v, false)
  | fuel + 1, v, i =>
    if i < v.rowCount then
      match (v.select i).getSelectedCollection with
      | some item =>
        if item.name = name then ((v.select i), true)
        else selectFinalLoop name fuel (v.select i) (i + 1)
      | none => selectFinalLoop name fuel (v.select i) (i + 1)
    else (v, false)

/-- The navigation of `gotoDateCollection` (bootstrap.js 781-823) along a
resolved path. An array that has fewer than four elements leaves a name read
on `undefined`, which throws. -/
def navigateToPath (v : TreeView) (collectionPath : List Collection) :
    TreeView × Except String (Option Collection) :=
  match collectionPath with
  | rootColl :: yearColl :: monthColl :: dayColl :: _ =>
    match findAndExpandByName v rootColl.name 0 with
    | (v1, some rootIndex) =>
      match findAndExpandByName v1 yearColl.name (rootIndex + 1) with
      | (v2, some yearIndex) =>
        match findAndExpandByName v2 monthColl.name (yearIndex + 1) with
        | (v3, some monthIndex) =>
          match selectFinalLoop dayColl.name (v3.rowCount - (monthIndex + 1)) v3
              (monthIndex + 1) with
          | (v4, true) => (v4, .ok (some dayColl))
          | (v4, false) => (v4, .ok none)
        | (v3, none) => (v3, .ok none)
      | (v2, none) => (v2, .ok none)
    | (v1, none) => (v1, .ok none)
  | _ => (v, .error "TypeError: undefined has no properties")

/-- The resolution of `gotoDateCollection` (bootstrap.js 760-774): look the
path up, create the four segments when asked to, look it up again. -/
def resolveCollectionPath (s : Store) (rootName dateStr : String) (libraryID : Nat)
    (createIfMissing : Bool) : Except String (Option (List Collection)) × Store :=
  match findCollectionPath s rootName dateStr libraryID with
  | (.error e, s1) => (.error e, s1)
  | (.ok (some collectionPath), s1) => (.ok (some collectionPath), s1)
  | (.ok none, s1) =>
    if createIfMissing then
      match ensureCollection s1 rootName none libraryID with
      | (.error e, s2) => (.error e, s2)
      | (.ok rootColl, s2) =>
        match ensureCollection s2 (yearOf dateStr) (some rootColl.id) libraryID with
        | (.error e, s3) => (.error e, s3)
        | (.ok yearColl, s3) =>
          match ensureCollection s3 (monthStrOf dateStr) (some yearColl.id) libraryID with
          | (.error e, s4) => (.error e, s4)
          | (.ok monthColl, s4) =>
            match ensureCollection s4 dateStr (some monthColl.id) libraryID with
            | (.error e, s5) => (.error e, s5)
            | (.ok _, s5) => findCollectionPath s5 rootName dateStr libraryID
    else (.ok none, s1)

/-- The pane `Z.getActiveZoteroPane()` gives: its tree view, absent while the
window has none, and the id `pane.getSelectedLibraryID()`. -/
structure Pane where
  collectionsView : Option TreeView
  selectedLibraryID : Nat
deriving DecidableEq, Repr

/-- The window `win`: the store behind `win.Zotero`, the active pane if there
is one, `Z.Libraries.userLibraryID`, and the preference
`rootCollectionName` if it is set. -/
structure Win where
  store : Store
  activePane : Option Pane
  userLibraryID : Nat
  rootPref : Option String
deriving DecidableEq, Repr

/-- The value of `getPrefString("rootCollectionName", DEFAULT_ROOT_COLLECTION_NAME)`. -/
def Win.rootName (win : Win) : String := win.rootPref.getD "Daily Folder"

/-- The library `pane.getSelectedLibraryID() || Z.Libraries.userLibraryID`. -/
def Pane.libraryID (pane : Pane) (userLibraryID : Nat) : Nat :=
  if pane.selectedLibraryID ≠ 0 then pane.selectedLibraryID else userLibraryID

/-- The library scope a call in `win` works in. -/
def Win.scope (win : Win) : Nat :=
  match win.activePane with
  | some pane => pane.libraryID win.userLibraryID
  | none => win.userLibraryID

/-- What a call of `gotoDateCollection` leaves behind: the store, the tree
view, and the value the call produced. -/
structure Outcome where
  store : Store
  view : Option TreeView
  result : Except String (Option Collection)
deriving DecidableEq, Repr

/-- The `try` block of `gotoDateCollection`; `none` is the `undefined` of a
bare `return`. The rows of the view are the ones it displays when the
navigation starts. -/
def gotoDateTry (win : Win) (dateStr : String) (createIfMissing : Bool) : Outcome :=
  match win.activePane with
  | none => ⟨win.store, none, .ok none⟩
  | some pane =>
    match pane.collectionsView with
    | none => ⟨win.store, none, .ok none⟩
    | some view =>
      match resolveCollectionPath win.store win.rootName dateStr
          (pane.libraryID win.userLibraryID) createIfMissing with
      | (.error e, s1) => ⟨s1, some view, .error e⟩
      | (.ok none, s1) => ⟨s1, some view, .ok none⟩
      | (.ok (some collectionPath), s1) =>
        ⟨s1, some (navigateToPath view collectionPath).1, (navigateToPath view collectionPath).2⟩

/-- Function `gotoDateCollection(win, dateStr, options)`: the `try` block and
the `catch` that logs the error and falls through to the end of the function. -/
def gotoDateCollection (win : Win) (dateStr : String) (createIfMissing : Bool) : Outcome :=
  match (gotoDateTry win dateStr createIfMissing).result with
  | .ok r => { gotoDateTry win dateStr createIfMissing with result := .ok r }
  | .error _ => { gotoDateTry win dateStr createIfMissing with result := .ok none }

/-! ## `refreshExisting` (bootstrap.js 457-489) -/

/-- The call `existingSet.add(name)` on a `Set` kept in insertion order. -/
def setAdd (set : List String) (name : String) : List String :=
  if name ∈ set then set else set ++ [name]

/-- The innermost loop, over `dayColls`. -/
def collectDays (set : List String) : List Collection → List String
  | [] => set
  | dayColl :: rest =>
    collectDays (if isDateName dayColl.name then setAdd set dayColl.name else set) rest

/-- The loop over `monthColls`. -/
def collectMonths (s : Store) (set : List String) :
    List Collection → Except String Unit × Store × List String
  | [] => (.ok (), s, set)
  | monthColl :: rest =>
    match getChildCollections s monthColl with
    | (.error e, s1) => (.error e, s1, set)
    | (.ok dayColls, s1) => collectMonths s1 (collectDays set dayColls) rest

/-- The loop over `yearColls`. -/
def collectYears (s : Store) (set : List String) :
    List Collection → Except String Unit × Store × List String
  | [] => (.ok (), s, set)
  | yearColl :: rest =>
    match getChildCollections s yearColl with
    | (.error e, s1) => (.error e, s1, set)
    | (.ok monthColls, s1) =>
      match collectMonths s1 set monthColls with
      | (.error e, s2, set2) => (.error e, s2, set2)
      | (.ok _, s2, set2) => collectYears s2 set2 rest

/-- Function `refreshExisting()` of the popup: the store and the contents of
`existingSet` after the call, given its contents before. The `catch` only
logs. -/
def refreshExisting (win : Win) (existingSet : List String) : Store × List String :=
  match ensureCollection win.store win.rootName none win.scope with
  | (.error _, s1) => (s1, existingSet)
  | (.ok root, s1) =>
    match getChildCollections s1 root with
    | (.error _, s2) => (s2, [])
    | (.ok yearColls, s2) =>
      match collectYears s2 [] yearColls with
      | (_, s3, set) => (s3, set)

/-! ## Definitions used in the statements -/

/-- The path `findCollectionPath` returns when none of its queries throws, as
a function of the persisted collections alone. -/
def findPath (cs : List Collection) (rootName dateStr : String) (libraryID : Nat) :
    Option (List Collection) :=
  match (cs.filter fun c => c.libraryID = libraryID ∧ c.parentID = none).filter
      (fun c => c.parentID = none ∧ c.name = rootName) with
  | [] => none
  | rootColl :: _ =>
    match (cs.filter fun c => c.parentID = some rootColl.id).find?
        (fun c => c.name = yearOf dateStr) with
    | none => none
    | some yearColl =>
      match (cs.filter fun c => c.parentID = some yearColl.id).find?
          (fun c => c.name = monthStrOf dateStr) with
      | none => none
      | some monthColl =>
        match (cs.filter fun c => c.parentID = some monthColl.id).find?
            (fun c => c.name = dateStr) with
        | none => none
        | some dayColl => some [rootColl, yearColl, monthColl, dayColl]

/-- The four-segment chain of a date exists in the store: a parentless
collection named `rootName` in the library, below it one named after the
year, below that one named after the year and month, below that one named
after the date. -/
def ChainExists (cs : List Collection) (rootName dateStr : String) (libraryID : Nat) : Prop :=
  ∃ r, r ∈ cs ∧ (r.libraryID = libraryID ∧ r.parentID = none ∧ r.name = rootName) ∧
    ∃ y, y ∈ cs ∧ (y.parentID = some r.id ∧ y.name = yearOf dateStr) ∧
      ∃ m, m ∈ cs ∧ (m.parentID = some y.id ∧ m.name = monthStrOf dateStr) ∧
        ∃ d, d ∈ cs ∧ (d.parentID = some m.id ∧ d.name = dateStr)

instance (cs : List Collection) (rootName dateStr : String) (libraryID : Nat) :
    Decidable (ChainExists cs rootName dateStr libraryID) := by
  unfold ChainExists
  infer_instance

/-- A window whose store holds the root and the year of 2025-03-07 but
neither month nor day, and whose store calls fail at the second call. -/
def missWin : Win :=
  ⟨⟨[⟨1, "Daily Folder", none, 1⟩, ⟨2, "2025", some 1, 1⟩], 0, [1], 0⟩,
    some ⟨some ⟨[⟨some ⟨1, "Daily Folder", none, 1⟩, 0, true, false⟩], none⟩, 1⟩, 1, none⟩

/-- The four collections the scenario of 2024-12-25 creates in library `lib`. -/
def xmasChain (lib : Nat) : List Collection :=
  [⟨1, "Daily Folder", none, lib⟩, ⟨2, "2024", some 1, lib⟩, ⟨3, "2024-12", some 2, lib⟩,
    ⟨4, "2024-12-25", some 3, lib⟩]

/-- A tree that lists the four collections of `xmasChain` as rows in
depth-first order: the three upper rows are containers with open states
`o1`, `o2`, `o3`, the row of the day has the flags `k4` and `o4`. -/
def xmasRows (lib : Nat) (o1 o2 o3 k4 o4 : Bool) : List Row :=
  [⟨some ⟨1, "Daily Folder", none, lib⟩, 0, true, o1⟩, ⟨some ⟨2, "2024", some 1, lib⟩, 1, true, o2⟩,
    ⟨some ⟨3, "2024-12", some 2, lib⟩, 2, true, o3⟩, ⟨some ⟨4, "2024-12-25", some 3, lib⟩, 3, k4, o4⟩]

/-- A tree that shows the root of the 2024-12-25 chain closed, in library 7. -/
def xmasView : TreeView := ⟨xmasRows 7 false false false false false, none⟩

/-- The first parentless collection of the library that has the root name. -/
def firstRoot (cs : List Collection) (rootName : String) (libraryID : Nat) : Option Collection :=
  cs.find? fun c => c.libraryID = libraryID ∧ c.parentID = none ∧ c.name = rootName

/-- The first collection below `parentID` that has the name `name`. -/
def firstChild (cs : List Collection) (parentID : Nat) (name : String) : Option Collection :=
  cs.find? fun c => c.parentID = some parentID ∧ c.name = name

/-- The first sibling `ensureCollection` looks for. -/
def firstSibling (cs : List Collection) (name : String) (parentID : Option Nat)
    (libraryID : Nat) : Option Collection :=
  match parentID with
  | some p => firstChild cs p name
  | none => cs.find? fun c => c.libraryID = libraryID ∧ c.parentID = none ∧ c.name = name

/-- A window on an empty store with an empty tree, library 3 selected. -/
def freshWin : Win := ⟨Store.empty, some ⟨some ⟨[], none⟩, 3⟩, 1, none⟩

/-- Whether `c` is a sibling named `name` for `ensureCollection`: a child of
the given parent, or a parentless collection of the library. -/
def siblingPred (name : String) (parentID : Option Nat) (libraryID : Nat) (c : Collection) :
    Bool :=
  match parentID with
  | some p => decide (c.parentID = some p ∧ c.name = name)
  | none => decide (c.libraryID = libraryID ∧ c.parentID = none ∧ c.name = name)

/-- The siblings named `name` under the given parent. -/
def siblingsNamed (cs : List Collection) (name : String) (parentID : Option Nat)
    (libraryID : Nat) : List Collection :=
  cs.filter (siblingPred name parentID libraryID)

/-- A store that holds the root and the year 2025 and whose first call
throws. -/
def lenientStore : Store :=
  ⟨[⟨1, "Daily Folder", none, 1⟩, ⟨2, "2025", some 1, 1⟩], 0, [0], 0⟩

/-- The same collections in a store in which no call throws. -/
def calmStore : Store :=
  ⟨[⟨1, "Daily Folder", none, 1⟩, ⟨2, "2025", some 1, 1⟩], 0, [], 0⟩

/-- Siblings are unique by name: two collections of one name under one parent
are the same collection, and so are two parentless collections of one name in
one library. -/
def SiblingsUnique (cs : List Collection) : Prop :=
  ∀ a ∈ cs, ∀ b ∈ cs, a.name = b.name → a.parentID = b.parentID →
    (a.parentID = none → a.libraryID = b.libraryID) → a = b

instance (cs : List Collection) : Decidable (SiblingsUnique cs) := by
  unfold SiblingsUnique
  infer_instance

/-- A store that holds the full chain of 2025-03-07 in library 1 and in which
no call throws. -/
def chainStore : Store :=
  ⟨[⟨1, "Daily Folder", none, 1⟩, ⟨2, "2025", some 1, 1⟩, ⟨3, "2025-03", some 2, 1⟩,
    ⟨4, "2025-03-07", some 3, 1⟩], 0, [], 0⟩

/-- The same collections in a store whose first call throws. -/
def brokenChainStore : Store := { chainStore with faults := [0] }

/-- Whether a string consists of decimal digits only. -/
def allDigits (s : String) : Bool := s.data.all Char.isDigit

/-- A window whose store holds, in library 1, the root with the year 2025 and
the month 2025-03; below the month the collections "notes" and "2025-03-07";
and collections with date names at other depths: "2024-01-01" directly below
the root, "2023-02-02" below the year, "2022-03-03" below the day. -/
def notesWin : Win :=
  ⟨⟨[⟨1, "Daily Folder", none, 1⟩, ⟨2, "2025", some 1, 1⟩, ⟨3, "2025-03", some 2, 1⟩,
      ⟨4, "notes", some 3, 1⟩, ⟨5, "2025-03-07", some 3, 1⟩, ⟨6, "2024-01-01", some 1, 1⟩,
      ⟨7, "2023-02-02", some 2, 1⟩, ⟨8, "2022-03-03", some 5, 1⟩], 0, [], 0⟩,
    none, 1, none⟩

/-- The collection shown in the displayed row number `j`, if any. -/
def TreeView.itemAt (v : TreeView) (j : Nat) : Option Collection :=
  (v.row? j).bind Row.item

/-- The view `findAndExpandByName` leaves when it matches row `k`. -/
def TreeView.matched (v : TreeView) (k : Nat) : TreeView :=
  if v.isContainer k && !v.isContainerOpen k then (v.select k).toggleOpenState k
  else v.select k

/-- The collection `c` is the item of some row of the tree, displayed or not. -/
def TreeView.holds (v : TreeView) (c : Collection) : Prop :=
  some c ∈ v.rows.map Row.item

/-- Names identify the chain among the rows of the tree: every collection
shown in some row, displayed or not, that bears the name of a chain segment
has the id of that segment. -/
def NamesIdentify (v : TreeView) (chain : List Collection) : Prop :=
  ∀ row ∈ v.rows, ∀ c ∈ row.item, ∀ k ∈ chain, c.name = k.name → c.id = k.id

instance (v : TreeView) (chain : List Collection) : Decidable (NamesIdentify v chain) := by
  unfold NamesIdentify
  infer_instance

/-- A window with two libraries that each hold the chain of 2025-03-07;
library 2 is selected, and the tree lists both chains fully expanded, the one
of library 1 first. -/
def twinWin : Win :=
  ⟨⟨[⟨1, "Daily Folder", none, 1⟩, ⟨2, "2025", some 1, 1⟩, ⟨3, "2025-03", some 2, 1⟩,
      ⟨4, "2025-03-07", some 3, 1⟩, ⟨5, "Daily Folder", none, 2⟩, ⟨6, "2025", some 5, 2⟩,
      ⟨7, "2025-03", some 6, 2⟩, ⟨8, "2025-03-07", some 7, 2⟩], 0, [], 0⟩,
    some ⟨some ⟨[⟨some ⟨1, "Daily Folder", none, 1⟩, 0, true, true⟩,
      ⟨some ⟨2, "2025", some 1, 1⟩, 1, true, true⟩,
      ⟨some ⟨3, "2025-03", some 2, 1⟩, 2, true, true⟩,
      ⟨some ⟨4, "2025-03-07", some 3, 1⟩, 3, false, false⟩,
      ⟨some ⟨5, "Daily Folder", none, 2⟩, 0, true, true⟩,
      ⟨some ⟨6, "2025", some 5, 2⟩, 1, true, true⟩,
      ⟨some ⟨7, "2025-03", some 6, 2⟩, 2, true, true⟩,
      ⟨some ⟨8, "2025-03-07", some 7, 2⟩, 3, false, false⟩], none⟩, 2⟩, 1, none⟩

/-- A window on an empty store whose fifth store call, the `saveTx` of the
year, throws. -/
def saveFailWin : Win := ⟨⟨[], 0, [4], 0⟩, some ⟨some ⟨[], none⟩, 1⟩, 1, none⟩

/-- Row `b` is row `a` with the same collection, depth and container flag,
and it is open if `a` is. -/
def Row.keptOpen (a b : Row) : Prop :=
  a.item = b.item ∧ a.level = b.level ∧ a.isContainer = b.isContainer ∧
    (a.isOpen = true → b.isOpen = true)

/-- The navigation along `[r, y, m, d]` in the view `v` matched the root and
then did not find a later level: `k` is the row of the last segment it
matched and `v4` the view the failing scan leaves. -/
def FailedAfter (v : TreeView) (r y m d : Collection) (v4 : TreeView) (k : Nat) : Prop :=
  ∃ v1 i0, findAndExpandByName v r.name 0 = (v1, some i0) ∧
    ((k = i0 ∧ findAndExpandByName v1 y.name (i0 + 1) = (v4, none)) ∨
      ∃ v2 i1, findAndExpandByName v1 y.name (i0 + 1) = (v2, some i1) ∧
        ((k = i1 ∧ findAndExpandByName v2 m.name (i1 + 1) = (v4, none)) ∨
          ∃ v3 i2, findAndExpandByName v2 m.name (i1 + 1) = (v3, some i2) ∧ k = i2 ∧
            selectFinalLoop d.name (v3.rowCount - (i2 + 1)) v3 (i2 + 1) = (v4, false)))

/-- A tree that shows the root open with one child named "misc". -/
def strayView : TreeView :=
  ⟨[⟨some ⟨1, "Daily Folder", none, 1⟩, 0, true, true⟩,
    ⟨some ⟨9, "misc", some 1, 1⟩, 1, true, false⟩], none⟩

/-- A window whose store holds the root with the years 2024 and 2025, each
with one month and one day, and whose fifth store call, the child query of
the year 2025, throws. -/
def partialWin : Win :=
  ⟨⟨[⟨1, "Daily Folder", none, 1⟩, ⟨2, "2024", some 1, 1⟩, ⟨3, "2024-01", some 2, 1⟩,
      ⟨4, "2024-01-05", some 3, 1⟩, ⟨5, "2025", some 1, 1⟩, ⟨6, "2025-03", some 5, 1⟩,
      ⟨7, "2025-03-07", some 6, 1⟩], 0, [4], 0⟩,
    none, 1, none⟩

/-- The window with the same store in which no call throws. -/
def Win.calm (win : Win) : Win := { win with store := { win.store with faults := [] } }

/-- Every parent a collection names is persisted in the store. -/
def ParentsPersisted (cs : List Collection) : Prop :=
  ∀ c ∈ cs, ∀ p ∈ c.parentID, ∃ q ∈ cs, q.id = p

instance (cs : List Collection) : Decidable (ParentsPersisted cs) := by
  unfold ParentsPersisted
  infer_instance

/-- A window whose store holds the root alone and whose first store call, the
lookup of the root, throws. -/
def rootLookupFailWin : Win :=
  ⟨⟨[⟨1, "Daily Folder", none, 1⟩], 0, [0], 0⟩, none, 1, none⟩

/-- A window whose store holds one collection of another name, in which no
call throws. -/
def noRootWin : Win :=
  ⟨⟨[⟨1, "Papers", none, 1⟩, ⟨2, "2025", some 1, 1⟩], 0, [], 0⟩, none, 1, none⟩

/-- The day collections each child query of the loop over `monthColls` hands
to the innermost loop, in the order of the queries. -/
def monthQueries (cs : List Collection) (months : List Collection) : List (List Collection) :=
  months.map fun m => cs.filter fun c => c.parentID = some m.id

/-- The child queries of the loop over `yearColls`, in the order they are
made, each with the day collections it hands to the innermost loop: none for
the query of a year, the children of the month for the query of a month. -/
def yearQueries (cs : List Collection) : List Collection → List (List Collection)
  | [] => []
  | y :: rest =>
    ([] :: monthQueries cs (cs.filter fun c => c.parentID = some y.id)) ++ yearQueries cs rest

/-- All child queries of the traversal of `refreshExisting` below `root`: the
query of the root, which hands over no day, and then those of `yearQueries`. -/
def traversalQueries (cs : List Collection) (root : Collection) : List (List Collection) :=
  [] :: yearQueries cs (cs.filter fun c => c.parentID = some root.id)

/-- How many of the `n` store calls numbered from `start` on succeed before
the first of them throws. -/
def callsBeforeThrow (faults : List Nat) : Nat → Nat → Nat
  | _, 0 => 0
  | start, n + 1 => if start ∈ faults then 0 else callsBeforeThrow faults (start + 1) n + 1

/-! # Theorems -/

/-! ## Reading the store without the call bookkeeping -/

/-! ## Lemmas on the store calls -/

theorem findCollectionPath_spec (s : Store) (rootName dateStr : String) (libraryID : Nat) :
    (findCollectionPath s rootName dateStr libraryID).2.colls = s.colls ∧
    (findCollectionPath s rootName dateStr libraryID).2.saveCalls = s.saveCalls ∧
    (findCollectionPath s rootName dateStr libraryID).2.faults = s.faults ∧
    (∀ p, (findCollectionPath s rootName dateStr libraryID).1 = .ok p →
      p = findPath s.colls rootName dateStr libraryID) ∧
    (s.faults = [] → (findCollectionPath s rootName dateStr libraryID).1 =
      .ok (findPath s.colls rootName dateStr libraryID)) := by
  unfold findCollectionPath findPath
  by_cases h0 : s.tick ∈ s.faults
  · simp only [getByLibrary, h0, if_true]
    exact ⟨by simp, by simp, by simp, by simp, fun hf => by simp [hf] at h0⟩
  simp only [getByLibrary, h0, if_false]
  cases (s.colls.filter fun c => c.libraryID = libraryID ∧ c.parentID = none).filter
      (fun c => c.parentID = none ∧ c.name = rootName) with
  | nil => simp
  | cons rootColl rest =>
    simp only []
    by_cases h1 : s.tick + 1 ∈ s.faults
    · simp only [getChildCollections, h1, if_true]
      exact ⟨by simp, by simp, by simp, by simp, fun hf => by simp [hf] at h1⟩
    simp only [getChildCollections, h1, if_false]
    cases (s.colls.filter fun c => c.parentID = some rootColl.id).find?
        (fun c => c.name = yearOf dateStr) with
    | none => simp
    | some yearColl =>
      simp only []
      by_cases h2 : s.tick + 1 + 1 ∈ s.faults
      · simp only [h2, if_true]
        exact ⟨by simp, by simp, by simp, by simp, fun hf => by simp [hf] at h2⟩
      simp only [h2, if_false]
      cases (s.colls.filter fun c => c.parentID = some yearColl.id).find?
          (fun c => c.name = monthStrOf dateStr) with
      | none => simp
      | some monthColl =>
        simp only []
        by_cases h3 : s.tick + 1 + 1 + 1 ∈ s.faults
        · simp only [h3, if_true]
          exact ⟨by simp, by simp, by simp, by simp, fun hf => by simp [hf] at h3⟩
        simp only [h3, if_false]
        cases (s.colls.filter fun c => c.parentID = some monthColl.id).find?
            (fun c => c.name = dateStr) with
        | none => simp
        | some dayColl => simp

theorem findPath_sound {cs : List Collection} {rootName dateStr : String} {libraryID : Nat}
    {p : List Collection} (h : findPath cs rootName dateStr libraryID = some p) :
    ∃ r y m d, p = [r, y, m, d] ∧ r ∈ cs ∧ y ∈ cs ∧ m ∈ cs ∧ d ∈ cs ∧
      r.libraryID = libraryID ∧ r.parentID = none ∧ r.name = rootName ∧
      y.parentID = some r.id ∧ y.name = yearOf dateStr ∧
      m.parentID = some y.id ∧ m.name = monthStrOf dateStr ∧
      d.parentID = some m.id ∧ d.name = dateStr := by
  unfold findPath at h
  split at h
  · simp at h
  · rename_i rootColl rest hroot
    split at h
    · simp at h
    · rename_i yearColl hy
      split at h
      · simp at h
      · rename_i monthColl hm
        split at h
        · simp at h
        · rename_i dayColl hd
          have hr : rootColl ∈ (cs.filter fun c => c.libraryID = libraryID ∧ c.parentID = none).filter
              (fun c => c.parentID = none ∧ c.name = rootName) := by
            rw [hroot]; exact List.mem_cons_self _ _
          have hy1 := List.mem_of_find?_eq_some hy
          have hy2 := List.find?_some hy
          have hm1 := List.mem_of_find?_eq_some hm
          have hm2 := List.find?_some hm
          have hd1 := List.mem_of_find?_eq_some hd
          have hd2 := List.find?_some hd
          simp only [List.mem_filter, decide_eq_true_eq, Bool.and_eq_true, Bool.decide_and] at hr hy1 hy2 hm1 hm2 hd1 hd2
          simp only [Option.some.injEq] at h
          exact ⟨rootColl, yearColl, monthColl, dayColl, h.symm, hr.1.1, hy1.1, hm1.1, hd1.1,
            hr.1.2.1, hr.2.1, hr.2.2, hy1.2, hy2, hm1.2, hm2, hd1.2, hd2⟩

theorem findPath_none_of_not_chainExists {cs : List Collection} {rootName dateStr : String}
    {libraryID : Nat} (h : ¬ ChainExists cs rootName dateStr libraryID) :
    findPath cs rootName dateStr libraryID = none := by
  cases hp : findPath cs rootName dateStr libraryID with
  | none => rfl
  | some p =>
    obtain ⟨r, y, m, d, -, h1, h2, h3, h4, h5, h6, h7, h8, h9, h10, h11, h12, h13⟩ :=
      findPath_sound hp
    exact absurd ⟨r, h1, ⟨h5, h6, h7⟩, y, h2, ⟨h8, h9⟩, m, h3, ⟨h10, h11⟩, d, h4, ⟨h12, h13⟩⟩ h

theorem resolveCollectionPath_false (s : Store) (rootName dateStr : String) (libraryID : Nat)
    (h : findPath s.colls rootName dateStr libraryID = none) :
    (resolveCollectionPath s rootName dateStr libraryID false).2.colls = s.colls ∧
    (resolveCollectionPath s rootName dateStr libraryID false).2.saveCalls = s.saveCalls ∧
    ((resolveCollectionPath s rootName dateStr libraryID false).1 = .ok none ∨
      ∃ e, (resolveCollectionPath s rootName dateStr libraryID false).1 = .error e) := by
  obtain ⟨h1, h2, -, h4, -⟩ := findCollectionPath_spec s rootName dateStr libraryID
  unfold resolveCollectionPath
  rcases hF : findCollectionPath s rootName dateStr libraryID with ⟨res, s1⟩
  rw [hF] at h1 h2 h4
  cases res with
  | error e => exact ⟨h1, h2, Or.inr ⟨e, rfl⟩⟩
  | ok p =>
    have hp := h4 p rfl
    rw [h] at hp
    subst hp
    exact ⟨h1, h2, Or.inl rfl⟩

/-- Claim C1. When the four-segment chain of a date does not fully exist in
the store, `gotoDateCollection` with `createIfMissing = false` never calls
`saveTx`, leaves the persisted collections as they were and returns nothing,
whatever the scope, the view and the failures of the store calls. -/
theorem gotoDate_no_create_on_miss (win : Win) (dateStr : String)
    (h : ¬ ChainExists win.store.colls win.rootName dateStr win.scope) :
    (gotoDateCollection win dateStr false).store.saveCalls = win.store.saveCalls ∧
    (gotoDateCollection win dateStr false).store.colls = win.store.colls ∧
    (gotoDateCollection win dateStr false).result = .ok none := by
  have hcases : (gotoDateTry win dateStr false).store.saveCalls = win.store.saveCalls ∧
      (gotoDateTry win dateStr false).store.colls = win.store.colls ∧
      ((gotoDateTry win dateStr false).result = .ok none ∨
        ∃ e, (gotoDateTry win dateStr false).result = .error e) := by
    cases hp : win.activePane with
    | none => simp [gotoDateTry, hp]
    | some pane =>
      cases hv : pane.collectionsView with
      | none => simp [gotoDateTry, hp, hv]
      | some view =>
        have hscope : win.scope = pane.libraryID win.userLibraryID := by
          simp [Win.scope, hp]
        rw [hscope] at h
        obtain ⟨h1, h2, h3⟩ := resolveCollectionPath_false win.store win.rootName dateStr
          (pane.libraryID win.userLibraryID) (findPath_none_of_not_chainExists h)
        simp only [gotoDateTry, hp, hv]
        rcases hR : resolveCollectionPath win.store win.rootName dateStr
          (pane.libraryID win.userLibraryID) false with ⟨res, s1⟩
        rw [hR] at h1 h2 h3
        rcases h3 with h3 | ⟨e, h3⟩
        · simp only at h3
          subst h3
          exact ⟨h2, h1, Or.inl rfl⟩
        · simp only at h3
          subst h3
          exact ⟨h2, h1, Or.inr ⟨e, rfl⟩⟩
  obtain ⟨h1, h2, h3⟩ := hcases
  unfold gotoDateCollection
  rcases h3 with h3 | ⟨e, h3⟩
  · rw [h3]; exact ⟨h1, h2, rfl⟩
  · rw [h3]; exact ⟨h1, h2, rfl⟩

theorem gotoDate_no_create_on_miss_witness :
    ¬ ChainExists missWin.store.colls missWin.rootName "2025-03-07" missWin.scope ∧
    (gotoDateCollection missWin "2025-03-07" false).store.saveCalls = missWin.store.saveCalls ∧
    (gotoDateCollection missWin "2025-03-07" false).store.colls = missWin.store.colls ∧
    (gotoDateCollection missWin "2025-03-07" false).result = .ok none :=
  ⟨by decide, gotoDate_no_create_on_miss missWin "2025-03-07" (by decide)⟩

/-! ## The scenario of the empty store -/

theorem navigate_xmas (lib : Nat) (o1 o2 o3 k4 o4 : Bool) (sel : Option Nat) :
    (navigateToPath ⟨xmasRows lib o1 o2 o3 k4 o4, sel⟩ (xmasChain lib)).2 =
      .ok (some ⟨4, "2024-12-25", some 3, lib⟩) := by
  cases o1 <;> cases o2 <;> cases o3 <;> cases k4 <;> cases o4 <;> rfl

theorem resolve_xmas (lib : Nat) :
    resolveCollectionPath Store.empty "Daily Folder" "2024-12-25" lib true =
      (.ok (some (xmasChain lib)), ⟨xmasChain lib, 13, [], 4⟩) := by
  have hy : yearOf "2024-12-25" = "2024" := by decide
  have hm : monthStrOf "2024-12-25" = "2024-12" := by decide
  simp [resolveCollectionPath, findCollectionPath, ensureCollection, createCollection,
    lookupSiblings, saveTx, getByLibrary, getByParent, getChildCollections, Store.empty,
    freshId, hy, hm, xmasChain]

/-- Claim C2. From the empty store and with the root label "Daily Folder",
`gotoDateCollection` for 2024-12-25 with `createIfMissing = true` calls
`saveTx` four times and persists exactly the collections "Daily Folder",
"2024", "2024-12", "2024-12-25", in that order, the first parentless and each
later one with the one created just before it as parent; and when the tree
lists these four collections as rows in depth-first order, the call returns
the collection named "2024-12-25". -/
theorem gotoDate_empty_store_creates_chain (view : TreeView)
    (selectedLibraryID userLibraryID : Nat) (rootPref : Option String)
    (hroot : rootPref.getD "Daily Folder" = "Daily Folder") :
    (gotoDateCollection ⟨Store.empty, some ⟨some view, selectedLibraryID⟩, userLibraryID,
        rootPref⟩ "2024-12-25" true).store.colls =
      xmasChain (Pane.libraryID ⟨some view, selectedLibraryID⟩ userLibraryID) ∧
    (gotoDateCollection ⟨Store.empty, some ⟨some view, selectedLibraryID⟩, userLibraryID,
        rootPref⟩ "2024-12-25" true).store.saveCalls = 4 ∧
    (∀ o1 o2 o3 k4 o4, view.rows =
        xmasRows (Pane.libraryID ⟨some view, selectedLibraryID⟩ userLibraryID) o1 o2 o3 k4 o4 →
      (gotoDateCollection ⟨Store.empty, some ⟨some view, selectedLibraryID⟩, userLibraryID,
        rootPref⟩ "2024-12-25" true).result =
      .ok (some ⟨4, "2024-12-25", some 3,
        Pane.libraryID ⟨some view, selectedLibraryID⟩ userLibraryID⟩)) := by
  have hT : gotoDateTry ⟨Store.empty, some ⟨some view, selectedLibraryID⟩, userLibraryID,
        rootPref⟩ "2024-12-25" true =
      ⟨⟨xmasChain (Pane.libraryID ⟨some view, selectedLibraryID⟩ userLibraryID), 13, [], 4⟩,
        some (navigateToPath view
          (xmasChain (Pane.libraryID ⟨some view, selectedLibraryID⟩ userLibraryID))).1,
        (navigateToPath view
          (xmasChain (Pane.libraryID ⟨some view, selectedLibraryID⟩ userLibraryID))).2⟩ := by
    simp only [gotoDateTry, Win.rootName, hroot, resolve_xmas]
  refine ⟨?_, ?_, ?_⟩
  · unfold gotoDateCollection
    rw [hT]
    split <;> rfl
  · unfold gotoDateCollection
    rw [hT]
    split <;> rfl
  · intro o1 o2 o3 k4 o4 hrows
    have hview : view = ⟨xmasRows (Pane.libraryID ⟨some view, selectedLibraryID⟩ userLibraryID)
        o1 o2 o3 k4 o4, view.selected⟩ := by
      cases view
      simp only [TreeView.mk.injEq, and_true]
      exact hrows
    have hnav := navigate_xmas (Pane.libraryID ⟨some view, selectedLibraryID⟩ userLibraryID)
      o1 o2 o3 k4 o4 view.selected
    rw [← hview] at hnav
    unfold gotoDateCollection
    rw [hT]
    simp only [hnav]

theorem gotoDate_empty_store_creates_chain_witness :
    (some "Daily Folder").getD "Daily Folder" = "Daily Folder" ∧
    (gotoDateCollection ⟨Store.empty, some ⟨some xmasView, 7⟩, 1, some "Daily Folder"⟩
      "2024-12-25" true).store.colls = xmasChain 7 ∧
    (gotoDateCollection ⟨Store.empty, some ⟨some xmasView, 7⟩, 1, some "Daily Folder"⟩
      "2024-12-25" true).result = .ok (some ⟨4, "2024-12-25", some 3, 7⟩) :=
  ⟨rfl, (gotoDate_empty_store_creates_chain xmasView 7 1 (some "Daily Folder") rfl).1,
    (gotoDate_empty_store_creates_chain xmasView 7 1 (some "Daily Folder") rfl).2.2
      false false false false false rfl⟩

/-! ## Lookups as first matches -/

theorem find?_filter_and (cs : List Collection) (q p : Collection → Prop)
    [DecidablePred q] [DecidablePred p] :
    (cs.filter fun c => q c).find? (fun c => p c) = cs.find? fun c => q c ∧ p c := by
  rw [List.find?_filter]
  congr 1
  funext c
  simp [Bool.decide_and]

theorem find?_of_filter_nil {α : Type} (p : α → Bool) (l : List α) (h : l.filter p = []) :
    l.find? p = none := by
  rw [List.find?_eq_none]
  intro x hx hp
  have : x ∈ l.filter p := List.mem_filter.mpr ⟨hx, hp⟩
  rw [h] at this
  exact absurd this (List.not_mem_nil x)

theorem find?_of_filter_cons {α : Type} (p : α → Bool) (l : List α) (x : α) (t : List α)
    (h : l.filter p = x :: t) : l.find? p = some x := by
  induction l with
  | nil => simp at h
  | cons a l ih =>
    by_cases hp : p a = true
    · rw [List.filter_cons_of_pos hp] at h
      rw [List.find?_cons_of_pos _ hp]
      exact congrArg some (List.cons.inj h).1
    · rw [List.filter_cons_of_neg hp] at h
      rw [List.find?_cons_of_neg _ hp]
      exact ih h

theorem findPath_eq_bind (cs : List Collection) (rootName dateStr : String) (libraryID : Nat) :
    findPath cs rootName dateStr libraryID =
      (firstRoot cs rootName libraryID).bind fun r =>
        (firstChild cs r.id (yearOf dateStr)).bind fun y =>
          (firstChild cs y.id (monthStrOf dateStr)).bind fun m =>
            (firstChild cs m.id dateStr).bind fun d => some [r, y, m, d] := by
  have hfilter : (cs.filter fun c => c.libraryID = libraryID ∧ c.parentID = none).filter
      (fun c => c.parentID = none ∧ c.name = rootName) =
      cs.filter (fun c => c.libraryID = libraryID ∧ c.parentID = none ∧ c.name = rootName) := by
    rw [List.filter_filter]
    congr 1
    funext c
    simp only [Bool.decide_and]
    cases decide (c.libraryID = libraryID) <;> cases decide (c.parentID = none) <;>
      cases decide (c.name = rootName) <;> rfl
  unfold findPath firstRoot firstChild
  rw [hfilter]
  simp only [find?_filter_and]
  cases hroot : cs.filter
      (fun c => c.libraryID = libraryID ∧ c.parentID = none ∧ c.name = rootName) with
  | nil =>
    rw [find?_of_filter_nil _ _ hroot]
    rfl
  | cons r t =>
    rw [find?_of_filter_cons _ _ _ _ hroot]
    simp only [Option.bind]
    cases cs.find? (fun c => c.parentID = some r.id ∧ c.name = yearOf dateStr) with
    | none => rfl
    | some y =>
      simp only []
      cases cs.find? (fun c => c.parentID = some y.id ∧ c.name = monthStrOf dateStr) with
      | none => rfl
      | some m =>
        simp only []
        cases cs.find? (fun c => c.parentID = some m.id ∧ c.name = dateStr) with
        | none => rfl
        | some d => rfl

theorem lookupSiblings_find? (s : Store) (name : String) (parentID : Option Nat)
    (libraryID : Nat) (hf : s.tick ∉ s.faults) :
    ∃ collections, lookupSiblings s parentID libraryID =
        (.ok collections, { s with tick := s.tick + 1 }) ∧
      collections.find? (fun c => c.name = name) =
        firstSibling s.colls name parentID libraryID := by
  cases parentID with
  | none =>
    refine ⟨_, by simp only [lookupSiblings, getByLibrary, hf, if_false]; rfl, ?_⟩
    simp only [firstSibling]
    rw [find?_filter_and s.colls (fun c => c.libraryID = libraryID ∧ c.parentID = none)
      (fun c => c.name = name)]
    congr 1
    funext c
    simp [and_assoc]
  | some p =>
    refine ⟨_, by simp only [lookupSiblings, getByParent, hf, if_false]; rfl, ?_⟩
    simp only [firstSibling, firstChild]
    exact find?_filter_and s.colls (fun c => c.parentID = some p) (fun c => c.name = name)

theorem ensureCollection_found (s : Store) (name : String) (parentID : Option Nat)
    (libraryID : Nat) (e : Collection) (hf : s.tick ∉ s.faults)
    (h : firstSibling s.colls name parentID libraryID = some e) :
    ensureCollection s name parentID libraryID = (.ok e, { s with tick := s.tick + 1 }) := by
  obtain ⟨collections, h1, h2⟩ := lookupSiblings_find? s name parentID libraryID hf
  unfold ensureCollection
  rw [h1]
  simp only [h2, h]

theorem ensureCollection_created (s : Store) (name : String) (parentID : Option Nat)
    (libraryID : Nat) (hf : s.tick ∉ s.faults) (hf1 : s.tick + 1 ∉ s.faults)
    (h : firstSibling s.colls name parentID libraryID = none) :
    ensureCollection s name parentID libraryID =
      (.ok ⟨freshId s.colls, name, parentID, libraryID⟩,
        ⟨s.colls ++ [⟨freshId s.colls, name, parentID, libraryID⟩], s.tick + 1 + 1, s.faults,
          s.saveCalls + 1⟩) := by
  obtain ⟨collections, h1, h2⟩ := lookupSiblings_find? s name parentID libraryID hf
  unfold ensureCollection
  rw [h1]
  simp only [h2, h, createCollection, saveTx, hf1, if_false]

theorem firstSibling_append_of_some (cs ext : List Collection) (name : String)
    (parentID : Option Nat) (libraryID : Nat) (c : Collection)
    (h : firstSibling cs name parentID libraryID = some c) :
    firstSibling (cs ++ ext) name parentID libraryID = some c := by
  cases parentID with
  | none =>
    simp only [firstSibling] at h ⊢
    rw [List.find?_append, h]
    rfl
  | some p =>
    simp only [firstSibling, firstChild] at h ⊢
    rw [List.find?_append, h]
    rfl

theorem firstSibling_append_new (cs : List Collection) (name : String)
    (parentID : Option Nat) (libraryID : Nat) (id : Nat)
    (h : firstSibling cs name parentID libraryID = none) :
    firstSibling (cs ++ [⟨id, name, parentID, libraryID⟩]) name parentID libraryID =
      some ⟨id, name, parentID, libraryID⟩ := by
  cases parentID with
  | none =>
    simp only [firstSibling] at h ⊢
    rw [List.find?_append, h]
    simp
  | some p =>
    simp only [firstSibling, firstChild] at h ⊢
    rw [List.find?_append, h]
    simp

/-- Without failing store calls `ensureCollection` returns a collection that
is afterwards the first sibling of its name, and it only appends to the
store. -/
theorem ensureCollection_noFault (s : Store) (name : String) (parentID : Option Nat)
    (libraryID : Nat) (hf : s.faults = []) :
    ∃ c s1, ensureCollection s name parentID libraryID = (.ok c, s1) ∧ s1.faults = [] ∧
      firstSibling s1.colls name parentID libraryID = some c ∧
      ∃ ext, s1.colls = s.colls ++ ext := by
  have hf0 : s.tick ∉ s.faults := by simp [hf]
  have hf1 : s.tick + 1 ∉ s.faults := by simp [hf]
  cases h : firstSibling s.colls name parentID libraryID with
  | some e =>
    exact ⟨e, _, ensureCollection_found s name parentID libraryID e hf0 h, hf, h, [], by simp⟩
  | none =>
    exact ⟨_, _, ensureCollection_created s name parentID libraryID hf0 hf1 h, hf,
      firstSibling_append_new s.colls name parentID libraryID _ h, _, rfl⟩

/-- Without failing store calls the resolution with `createIfMissing = true`
ends with a path, and that path is the one the store then holds. -/
theorem resolveCollectionPath_noFault (s : Store) (rootName dateStr : String) (libraryID : Nat)
    (hf : s.faults = []) :
    ∃ chain s1, resolveCollectionPath s rootName dateStr libraryID true =
        (.ok (some chain), s1) ∧ s1.faults = [] ∧
      findPath s1.colls rootName dateStr libraryID = some chain := by
  obtain ⟨h1, -, h3, -, h5⟩ := findCollectionPath_spec s rootName dateStr libraryID
  rcases hF : findCollectionPath s rootName dateStr libraryID with ⟨res, s0⟩
  rw [hF] at h1 h3 h5
  have hres := h5 hf
  simp only at hres h1 h3
  subst hres
  have hf0 : s0.faults = [] := h3.trans hf
  cases hp : findPath s.colls rootName dateStr libraryID with
  | some chain =>
    refine ⟨chain, s0, ?_, hf0, by rw [h1]; exact hp⟩
    simp only [resolveCollectionPath, hF, hp]
  | none =>
    obtain ⟨r, s2, he1, hf2, hr, ext1, hx1⟩ :=
      ensureCollection_noFault s0 rootName none libraryID hf0
    obtain ⟨y, s3, he2, hf3, hy, ext2, hx2⟩ :=
      ensureCollection_noFault s2 (yearOf dateStr) (some r.id) libraryID hf2
    obtain ⟨m, s4, he3, hf4, hm, ext3, hx3⟩ :=
      ensureCollection_noFault s3 (monthStrOf dateStr) (some y.id) libraryID hf3
    obtain ⟨d, s5, he4, hf5, hd, ext4, hx4⟩ :=
      ensureCollection_noFault s4 dateStr (some m.id) libraryID hf4
    have hr5 : firstRoot s5.colls rootName libraryID = some r := by
      have := firstSibling_append_of_some s2.colls (ext2 ++ ext3 ++ ext4) rootName none
        libraryID r hr
      rw [hx4, hx3, hx2]
      simpa [List.append_assoc, firstSibling, firstRoot] using this
    have hy5 : firstChild s5.colls r.id (yearOf dateStr) = some y := by
      have := firstSibling_append_of_some s3.colls (ext3 ++ ext4) (yearOf dateStr) (some r.id)
        libraryID y hy
      rw [hx4, hx3]
      simpa [List.append_assoc, firstSibling] using this
    have hm5 : firstChild s5.colls y.id (monthStrOf dateStr) = some m := by
      have := firstSibling_append_of_some s4.colls ext4 (monthStrOf dateStr) (some y.id)
        libraryID m hm
      rw [hx4]
      simpa [firstSibling] using this
    have hd5 : firstChild s5.colls m.id dateStr = some d := by
      simpa [firstSibling] using hd
    have hpath : findPath s5.colls rootName dateStr libraryID = some [r, y, m, d] := by
      rw [findPath_eq_bind, hr5]
      simp only [Option.bind, hy5, hm5, hd5]
    obtain ⟨g1, -, g3, -, g5⟩ := findCollectionPath_spec s5 rootName dateStr libraryID
    rcases hG : findCollectionPath s5 rootName dateStr libraryID with ⟨res5, s6⟩
    rw [hG] at g1 g3 g5
    have hres5 := g5 hf5
    simp only at hres5 g1 g3
    subst hres5
    refine ⟨[r, y, m, d], s6, ?_, g3.trans hf5, by rw [g1]; exact hpath⟩
    simp only [resolveCollectionPath, hF, hp, he1, he2, he3, he4, hG, hpath, if_true]

theorem gotoDateCollection_store_view (win : Win) (dateStr : String) (createIfMissing : Bool) :
    (gotoDateCollection win dateStr createIfMissing).store =
      (gotoDateTry win dateStr createIfMissing).store ∧
    (gotoDateCollection win dateStr createIfMissing).view =
      (gotoDateTry win dateStr createIfMissing).view := by
  unfold gotoDateCollection
  split <;> exact ⟨rfl, rfl⟩

/-- Claim C3. In a window with a tree view and a store in which no call
fails, `gotoDateCollection` for 2025-03-07 with `createIfMissing = true`
resolves a path of four collections, navigates the view along it, and a
`findCollectionPath` for the same date on the store it leaves returns that
same path: the same four collections, so the same ids position by
position. -/
theorem gotoDate_then_resolvePath (win : Win) (pane : Pane) (view : TreeView)
    (hp : win.activePane = some pane) (hv : pane.collectionsView = some view)
    (hf : win.store.faults = []) :
    ∃ r y m d,
      (resolveCollectionPath win.store win.rootName "2025-03-07" win.scope true).1 =
        .ok (some [r, y, m, d]) ∧
      (gotoDateCollection win "2025-03-07" true).store =
        (resolveCollectionPath win.store win.rootName "2025-03-07" win.scope true).2 ∧
      (gotoDateCollection win "2025-03-07" true).view =
        some (navigateToPath view [r, y, m, d]).1 ∧
      (findCollectionPath (gotoDateCollection win "2025-03-07" true).store win.rootName
        "2025-03-07" win.scope).1 = .ok (some [r, y, m, d]) := by
  have hscope : win.scope = pane.libraryID win.userLibraryID := by
    simp [Win.scope, hp]
  obtain ⟨chain, s1, hR, hf1, hpath⟩ :=
    resolveCollectionPath_noFault win.store win.rootName "2025-03-07" win.scope hf
  obtain ⟨r, y, m, d, hchain, -⟩ := findPath_sound hpath
  subst hchain
  have hT : gotoDateTry win "2025-03-07" true =
      ⟨s1, some (navigateToPath view [r, y, m, d]).1, (navigateToPath view [r, y, m, d]).2⟩ := by
    rw [hscope] at hR
    simp only [gotoDateTry, hp, hv, hR]
  obtain ⟨hs, hview⟩ := gotoDateCollection_store_view win "2025-03-07" true
  rw [hT] at hs hview
  refine ⟨r, y, m, d, by rw [hR], by rw [hs, hR], hview, ?_⟩
  rw [hs]
  have h5 := (findCollectionPath_spec s1 win.rootName "2025-03-07" win.scope).2.2.2.2 hf1
  rw [h5]
  exact congrArg Except.ok hpath

theorem gotoDate_then_resolvePath_witness :
    ∃ r y m d,
      (resolveCollectionPath freshWin.store freshWin.rootName "2025-03-07" freshWin.scope
        true).1 = .ok (some [r, y, m, d]) ∧
      (gotoDateCollection freshWin "2025-03-07" true).store =
        (resolveCollectionPath freshWin.store freshWin.rootName "2025-03-07" freshWin.scope
          true).2 ∧
      (gotoDateCollection freshWin "2025-03-07" true).view =
        some (navigateToPath ⟨[], none⟩ [r, y, m, d]).1 ∧
      (findCollectionPath (gotoDateCollection freshWin "2025-03-07" true).store
        freshWin.rootName "2025-03-07" freshWin.scope).1 = .ok (some [r, y, m, d]) :=
  gotoDate_then_resolvePath freshWin ⟨some ⟨[], none⟩, 3⟩ ⟨[], none⟩ rfl rfl rfl

/-! ## `ensureCollection` twice -/

theorem firstSibling_eq_find? (cs : List Collection) (name : String) (parentID : Option Nat)
    (libraryID : Nat) :
    firstSibling cs name parentID libraryID = cs.find? (siblingPred name parentID libraryID) := by
  cases parentID with
  | none => rfl
  | some p => rfl

theorem siblingsNamed_of_found (cs : List Collection) (name : String) (parentID : Option Nat)
    (libraryID : Nat) (e : Collection) (h : firstSibling cs name parentID libraryID = some e)
    (hle : (siblingsNamed cs name parentID libraryID).length ≤ 1) :
    siblingsNamed cs name parentID libraryID = [e] := by
  rw [firstSibling_eq_find?] at h
  unfold siblingsNamed at hle ⊢
  cases hfl : cs.filter (siblingPred name parentID libraryID) with
  | nil =>
    rw [find?_of_filter_nil _ _ hfl] at h
    exact absurd h (by simp)
  | cons x t =>
    rw [find?_of_filter_cons _ _ _ _ hfl] at h
    rw [hfl] at hle
    cases t with
    | nil => simpa using h
    | cons z t2 => simp at hle

theorem siblingsNamed_of_created (cs : List Collection) (name : String)
    (parentID : Option Nat) (libraryID : Nat) (id : Nat)
    (h : firstSibling cs name parentID libraryID = none) :
    siblingsNamed (cs ++ [⟨id, name, parentID, libraryID⟩]) name parentID libraryID =
      [⟨id, name, parentID, libraryID⟩] := by
  rw [firstSibling_eq_find?, List.find?_eq_none] at h
  unfold siblingsNamed
  rw [List.filter_append]
  have h1 : cs.filter (siblingPred name parentID libraryID) = [] := by
    rw [List.filter_eq_nil_iff]
    exact h
  rw [h1]
  cases parentID with
  | none => simp [siblingPred]
  | some p => simp [siblingPred]

/-- Claim C4, amended. In a store in which no call fails, two calls of
`ensureCollection` in sequence return the same collection, and the second
call persists nothing and does not call `saveTx`. If a sibling of that name
existed before the first call, the first such sibling is returned and nothing
is persisted; otherwise exactly one collection of that name, parent and
library is persisted. If at most one sibling of that name existed before,
the returned collection is afterwards the only one. -/
theorem ensureCollection_twice (s : Store) (name : String) (parentID : Option Nat)
    (libraryID : Nat) (hf : s.faults = []) :
    ∃ c s1 s2,
      ensureCollection s name parentID libraryID = (.ok c, s1) ∧
      ensureCollection s1 name parentID libraryID = (.ok c, s2) ∧
      s2.colls = s1.colls ∧ s2.saveCalls = s1.saveCalls ∧
      (∀ e, firstSibling s.colls name parentID libraryID = some e →
        c = e ∧ s1.colls = s.colls ∧ s1.saveCalls = s.saveCalls) ∧
      (firstSibling s.colls name parentID libraryID = none →
        s1.colls = s.colls ++ [c] ∧ s1.saveCalls = s.saveCalls + 1 ∧
        c.name = name ∧ c.parentID = parentID ∧ c.libraryID = libraryID) ∧
      ((siblingsNamed s.colls name parentID libraryID).length ≤ 1 →
        siblingsNamed s2.colls name parentID libraryID = [c]) := by
  have hf0 : s.tick ∉ s.faults := by simp [hf]
  have hf1 : s.tick + 1 ∉ s.faults := by simp [hf]
  have hf2 : s.tick + 1 + 1 ∉ s.faults := by simp [hf]
  cases h : firstSibling s.colls name parentID libraryID with
  | some e =>
    refine ⟨e, { s with tick := s.tick + 1 }, { s with tick := s.tick + 1 + 1 },
      ensureCollection_found s name parentID libraryID e hf0 h,
      ensureCollection_found { s with tick := s.tick + 1 } name parentID libraryID e hf1 h,
      rfl, rfl, ?_, ?_, ?_⟩
    · intro e2 he2
      exact ⟨(Option.some.inj he2), rfl, rfl⟩
    · intro hn
      exact absurd hn (by simp)
    · intro hle
      exact siblingsNamed_of_found s.colls name parentID libraryID e h hle
  | none =>
    have hnew := firstSibling_append_new s.colls name parentID libraryID (freshId s.colls) h
    refine ⟨⟨freshId s.colls, name, parentID, libraryID⟩,
      ⟨s.colls ++ [⟨freshId s.colls, name, parentID, libraryID⟩], s.tick + 1 + 1, s.faults,
        s.saveCalls + 1⟩,
      ⟨s.colls ++ [⟨freshId s.colls, name, parentID, libraryID⟩], s.tick + 1 + 1 + 1, s.faults,
        s.saveCalls + 1⟩,
      ensureCollection_created s name parentID libraryID hf0 hf1 h,
      ensureCollection_found _ name parentID libraryID _ hf2 hnew,
      rfl, rfl, ?_, ?_, ?_⟩
    · intro e2 he2
      exact absurd he2 (by simp)
    · intro _
      exact ⟨rfl, rfl, rfl, rfl, rfl⟩
    · intro _
      exact siblingsNamed_of_created s.colls name parentID libraryID (freshId s.colls) h

/-- Claim C4 as stated fails: when the lookup of the first call throws,
`ensureCollection` persists a second "2025" under the root although one
exists; the first call returns the new collection 3, the second call the old
collection 2, and two siblings of that name remain. -/
theorem ensureCollection_twice_counterexample :
    (ensureCollection lenientStore "2025" (some 1) 1).1 = .ok ⟨3, "2025", some 1, 1⟩ ∧
    (ensureCollection (ensureCollection lenientStore "2025" (some 1) 1).2 "2025" (some 1) 1).1 =
      .ok ⟨2, "2025", some 1, 1⟩ ∧
    siblingsNamed
      (ensureCollection (ensureCollection lenientStore "2025" (some 1) 1).2 "2025"
        (some 1) 1).2.colls "2025" (some 1) 1 =
      [⟨2, "2025", some 1, 1⟩, ⟨3, "2025", some 1, 1⟩] := by
  decide

theorem ensureCollection_twice_witness :
    ∃ c s1 s2,
      ensureCollection calmStore "2024" (some 1) 1 = (.ok c, s1) ∧
      ensureCollection s1 "2024" (some 1) 1 = (.ok c, s2) ∧
      s2.colls = s1.colls ∧ s2.saveCalls = s1.saveCalls ∧
      (∀ e, firstSibling calmStore.colls "2024" (some 1) 1 = some e →
        c = e ∧ s1.colls = calmStore.colls ∧ s1.saveCalls = calmStore.saveCalls) ∧
      (firstSibling calmStore.colls "2024" (some 1) 1 = none →
        s1.colls = calmStore.colls ++ [c] ∧ s1.saveCalls = calmStore.saveCalls + 1 ∧
        c.name = "2024" ∧ c.parentID = some 1 ∧ c.libraryID = 1) ∧
      ((siblingsNamed calmStore.colls "2024" (some 1) 1).length ≤ 1 →
        siblingsNamed s2.colls "2024" (some 1) 1 = [c]) :=
  ensureCollection_twice calmStore "2024" (some 1) 1 rfl

/-! ## Date strings of the form Y-M-D -/

theorem splitDash_ne_nil (cs : List Char) : splitDash cs ≠ [] := by
  induction cs with
  | nil => simp [splitDash]
  | cons c cs ih =>
    unfold splitDash
    split
    · simp
    · split
      · simp
      · simp

theorem splitDash_append_dash (ys rest : List Char) (hy : '-' ∉ ys) :
    splitDash (ys ++ '-' :: rest) = ys :: splitDash rest := by
  induction ys with
  | nil => simp [splitDash]
  | cons c cs ih =>
    have hc : c ≠ '-' := fun h => hy (by simp [h])
    have hcs : '-' ∉ cs := fun h => hy (by simp [h])
    have ih2 := ih hcs
    have e : splitDash (c :: (cs ++ '-' :: rest)) =
        (match splitDash (cs ++ '-' :: rest) with
          | [] => [[c]]
          | p :: ps => (c :: p) :: ps) := by
      simp only [splitDash, hc, if_false]
    rw [List.cons_append, e, ih2]

theorem yearOf_dashed (y rest : String) (hy : '-' ∉ y.data) :
    yearOf (y ++ "-" ++ rest) = y := by
  have h : (y ++ "-" ++ rest).data = y.data ++ '-' :: rest.data := by
    simp [String.data_append]
  simp only [yearOf, splitDate, h, splitDash_append_dash _ _ hy, List.map_cons, List.headD_cons]

theorem monthStrOf_dashed (y m rest : String) (hy : '-' ∉ y.data) (hm : '-' ∉ m.data) :
    monthStrOf (y ++ "-" ++ m ++ "-" ++ rest) = y ++ "-" ++ m := by
  have h : (y ++ "-" ++ m ++ "-" ++ rest).data = y.data ++ '-' :: (m.data ++ '-' :: rest.data) := by
    simp [String.data_append]
  have hyear : yearOf (y ++ "-" ++ m ++ "-" ++ rest) = y := by
    simp only [yearOf, splitDate, h, splitDash_append_dash _ _ hy, List.map_cons,
      List.headD_cons]
  simp only [monthStrOf, hyear, splitDate, h, splitDash_append_dash _ _ hy,
    splitDash_append_dash _ _ hm, List.map_cons, List.getD_cons_succ, List.getD_cons_zero]

/-! ## `findCollectionPath` on stores with unique siblings -/

theorem find?_of_unique {α : Type} (p : α → Bool) (l : List α) (x : α) (hx : x ∈ l)
    (hp : p x = true) (hu : ∀ a ∈ l, p a = true → a = x) : l.find? p = some x := by
  cases h : l.find? p with
  | none =>
    rw [List.find?_eq_none] at h
    exact absurd hp (h x hx)
  | some a =>
    exact congrArg some (hu a (List.mem_of_find?_eq_some h) (List.find?_some h))

theorem firstRoot_of_unique {cs : List Collection} (hu : SiblingsUnique cs) (rootName : String)
    (libraryID : Nat) (r : Collection) (hr : r ∈ cs) (h1 : r.libraryID = libraryID)
    (h2 : r.parentID = none) (h3 : r.name = rootName) :
    firstRoot cs rootName libraryID = some r := by
  unfold firstRoot
  apply find?_of_unique _ _ _ hr
  · simp [h1, h2, h3]
  · intro a ha hpa
    simp only [decide_eq_true_eq] at hpa
    exact hu a ha r hr (hpa.2.2.trans h3.symm) (hpa.2.1.trans h2.symm)
      (fun _ => hpa.1.trans h1.symm)

theorem firstChild_of_unique {cs : List Collection} (hu : SiblingsUnique cs) (parentID : Nat)
    (name : String) (c : Collection) (hc : c ∈ cs) (h1 : c.parentID = some parentID)
    (h2 : c.name = name) : firstChild cs parentID name = some c := by
  unfold firstChild
  apply find?_of_unique _ _ _ hc
  · simp [h1, h2]
  · intro a ha hpa
    simp only [decide_eq_true_eq] at hpa
    exact hu a ha c hc (hpa.2.trans h2.symm) (hpa.1.trans h1.symm)
      (fun hn => by rw [hpa.1] at hn; exact absurd hn (by simp))

/-- Claim C5, amended. On a store with unique siblings in which no query
fails, and for a date string `year-month-day`, `findCollectionPath` returns
the path `[r, y, m, d]` exactly when `r` is a parentless collection of the
library named `rootName`, `y` a child of `r` named `year`, `m` a child of `y`
named `year-month` and `d` a child of `m` named `year-month-day`; and it
returns either nothing or such a path of four, never an error and never a
shorter path. -/
theorem findCollectionPath_iff (s : Store) (rootName year month day : String)
    (libraryID : Nat) (hf : s.faults = []) (hu : SiblingsUnique s.colls)
    (hy : '-' ∉ year.data) (hm : '-' ∉ month.data) :
    (∀ r y m d,
      (findCollectionPath s rootName (year ++ "-" ++ month ++ "-" ++ day) libraryID).1 =
          .ok (some [r, y, m, d]) ↔
        (r ∈ s.colls ∧ r.libraryID = libraryID ∧ r.parentID = none ∧ r.name = rootName) ∧
        (y ∈ s.colls ∧ y.parentID = some r.id ∧ y.name = year) ∧
        (m ∈ s.colls ∧ m.parentID = some y.id ∧ m.name = year ++ "-" ++ month) ∧
        (d ∈ s.colls ∧ d.parentID = some m.id ∧
          d.name = year ++ "-" ++ month ++ "-" ++ day)) ∧
    ((findCollectionPath s rootName (year ++ "-" ++ month ++ "-" ++ day) libraryID).1 =
        .ok none ∨
      ∃ r y m d,
        (findCollectionPath s rootName (year ++ "-" ++ month ++ "-" ++ day) libraryID).1 =
          .ok (some [r, y, m, d])) := by
  have hres := (findCollectionPath_spec s rootName (year ++ "-" ++ month ++ "-" ++ day)
    libraryID).2.2.2.2 hf
  have hyear : yearOf (year ++ "-" ++ month ++ "-" ++ day) = year := by
    have := yearOf_dashed year (month ++ "-" ++ day) hy
    simpa [String.append_assoc] using this
  have hmonth := monthStrOf_dashed year month day hy hm
  rw [hres]
  constructor
  · intro r y m d
    constructor
    · intro h
      have h2 : findPath s.colls rootName (year ++ "-" ++ month ++ "-" ++ day) libraryID =
          some [r, y, m, d] := by
        simpa using h
      obtain ⟨r2, y2, m2, d2, hl, p1, p2, p3, p4, p5, p6, p7, p8, p9, p10, p11, p12, p13⟩ :=
        findPath_sound h2
      simp only [List.cons.injEq, and_true] at hl
      obtain ⟨e1, e2, e3, e4⟩ := hl
      subst e1 e2 e3 e4
      rw [hyear] at p9
      rw [hmonth] at p11
      exact ⟨⟨p1, p5, p6, p7⟩, ⟨p2, p8, p9⟩, ⟨p3, p10, p11⟩, ⟨p4, p12, p13⟩⟩
    · rintro ⟨⟨p1, p5, p6, p7⟩, ⟨p2, p8, p9⟩, ⟨p3, p10, p11⟩, ⟨p4, p12, p13⟩⟩
      rw [findPath_eq_bind, hyear, hmonth,
        firstRoot_of_unique hu rootName libraryID r p1 p5 p6 p7]
      simp only [Option.bind, firstChild_of_unique hu r.id year y p2 p8 p9,
        firstChild_of_unique hu y.id (year ++ "-" ++ month) m p3 p10 p11,
        firstChild_of_unique hu m.id (year ++ "-" ++ month ++ "-" ++ day) d p4 p12 p13]
  · cases hp : findPath s.colls rootName (year ++ "-" ++ month ++ "-" ++ day) libraryID with
    | none => exact Or.inl rfl
    | some p =>
      obtain ⟨r, y, m, d, hl, -⟩ := findPath_sound hp
      exact Or.inr ⟨r, y, m, d, by rw [hl]⟩

/-- Claim C5 as stated fails: on a store with unique siblings that holds the
full chain, `findCollectionPath` returns neither the chain nor not-found when
its query throws; the error leaves the function. -/
theorem findCollectionPath_counterexample :
    SiblingsUnique brokenChainStore.colls ∧
    ChainExists brokenChainStore.colls "Daily Folder" "2025-03-07" 1 ∧
    (findCollectionPath brokenChainStore "Daily Folder" "2025-03-07" 1).1 =
      .error "getByLibrary failed" := by
  decide

theorem findCollectionPath_iff_witness :
    (∀ r y m d,
      (findCollectionPath chainStore "Daily Folder" ("2025" ++ "-" ++ "03" ++ "-" ++ "07") 1).1 =
          .ok (some [r, y, m, d]) ↔
        (r ∈ chainStore.colls ∧ r.libraryID = 1 ∧ r.parentID = none ∧
          r.name = "Daily Folder") ∧
        (y ∈ chainStore.colls ∧ y.parentID = some r.id ∧ y.name = "2025") ∧
        (m ∈ chainStore.colls ∧ m.parentID = some y.id ∧ m.name = "2025" ++ "-" ++ "03") ∧
        (d ∈ chainStore.colls ∧ d.parentID = some m.id ∧
          d.name = "2025" ++ "-" ++ "03" ++ "-" ++ "07")) ∧
    ((findCollectionPath chainStore "Daily Folder" ("2025" ++ "-" ++ "03" ++ "-" ++ "07") 1).1 =
        .ok none ∨
      ∃ r y m d,
        (findCollectionPath chainStore "Daily Folder"
          ("2025" ++ "-" ++ "03" ++ "-" ++ "07") 1).1 = .ok (some [r, y, m, d])) :=
  findCollectionPath_iff chainStore "Daily Folder" "2025" "03" "07" 1 rfl (by decide)
    (by decide) (by decide)

/-! ## Decimal digits of a number -/

theorem toDigitsCore_append (fuel n : Nat) (ds : List Char) :
    Nat.toDigitsCore 10 fuel n ds = Nat.toDigitsCore 10 fuel n [] ++ ds := by
  induction fuel generalizing n ds with
  | zero => simp [Nat.toDigitsCore]
  | succ f ih =>
    simp only [Nat.toDigitsCore]
    by_cases h : n / 10 = 0
    · simp [h]
    · simp only [h, if_false]
      rw [ih (n / 10) (Nat.digitChar (n % 10) :: ds), ih (n / 10) [Nat.digitChar (n % 10)]]
      simp

theorem toDigitsCore_fuel (f1 f2 n : Nat) (ds : List Char) (h1 : n < f1) (h2 : n < f2) :
    Nat.toDigitsCore 10 f1 n ds = Nat.toDigitsCore 10 f2 n ds := by
  induction f1 generalizing f2 n ds with
  | zero => omega
  | succ k ih =>
    cases f2 with
    | zero => omega
    | succ j =>
      simp only [Nat.toDigitsCore]
      by_cases h : n / 10 = 0
      · simp [h]
      · simp only [h, if_false]
        exact ih j (n / 10) _ (by omega) (by omega)

theorem toDigits_small (n : Nat) (h : n < 10) : Nat.toDigits 10 n = [Nat.digitChar n] := by
  have h0 : n / 10 = 0 := by omega
  have h1 : n % 10 = n := by omega
  simp [Nat.toDigits, Nat.toDigitsCore, h0, h1]

theorem toDigits_step (n : Nat) (h : 10 ≤ n) :
    Nat.toDigits 10 n = Nat.toDigits 10 (n / 10) ++ [Nat.digitChar (n % 10)] := by
  have h0 : n / 10 ≠ 0 := by omega
  unfold Nat.toDigits
  rw [Nat.toDigitsCore]
  simp only [h0, if_false]
  rw [toDigitsCore_append, toDigitsCore_fuel n (n / 10 + 1) (n / 10) [] (by omega) (by omega)]

theorem digitChar_isDigit (k : Nat) (h : k < 10) :
    (Nat.digitChar k).isDigit = true ∧ Nat.digitChar k ≠ '-' := by
  have : ∀ j, j < 10 → ((Nat.digitChar j).isDigit = true ∧ Nat.digitChar j ≠ '-') := by decide
  exact this k h

theorem toDigits_isDigit (n : Nat) : ∀ c ∈ Nat.toDigits 10 n, c.isDigit = true ∧ c ≠ '-' := by
  induction n using Nat.strong_induction_on with
  | _ n ih =>
    by_cases h : n < 10
    · rw [toDigits_small n h]
      intro c hc
      simp only [List.mem_singleton] at hc
      subst hc
      exact digitChar_isDigit n h
    · rw [toDigits_step n (by omega)]
      intro c hc
      simp only [List.mem_append, List.mem_singleton] at hc
      rcases hc with hc | hc
      · exact ih (n / 10) (by omega) c hc
      · subst hc
        exact digitChar_isDigit (n % 10) (by omega)

theorem toDigits_length_pos (n : Nat) : 1 ≤ (Nat.toDigits 10 n).length := by
  by_cases h : n < 10
  · rw [toDigits_small n h]; simp
  · rw [toDigits_step n (by omega)]; simp

theorem toDigits_length_one (n : Nat) : (Nat.toDigits 10 n).length = 1 ↔ n < 10 := by
  by_cases h : n < 10
  · rw [toDigits_small n h]; simp [h]
  · have := toDigits_length_pos (n / 10)
    rw [toDigits_step n (by omega)]
    simp only [List.length_append, List.length_singleton]
    omega

theorem toDigits_length_two (n : Nat) :
    (Nat.toDigits 10 n).length = 2 ↔ 10 ≤ n ∧ n < 100 := by
  by_cases h : n < 10
  · have := (toDigits_length_one n).mpr h
    omega
  · have := toDigits_length_one (n / 10)
    rw [toDigits_step n (by omega)]
    simp only [List.length_append, List.length_singleton]
    omega

theorem toDigits_length_three (n : Nat) :
    (Nat.toDigits 10 n).length = 3 ↔ 100 ≤ n ∧ n < 1000 := by
  by_cases h : n < 10
  · have := (toDigits_length_one n).mpr h
    omega
  · have := toDigits_length_two (n / 10)
    rw [toDigits_step n (by omega)]
    simp only [List.length_append, List.length_singleton]
    omega

theorem toDigits_length_four (n : Nat) :
    (Nat.toDigits 10 n).length = 4 ↔ 1000 ≤ n ∧ n < 10000 := by
  by_cases h : n < 10
  · have := (toDigits_length_one n).mpr h
    omega
  · have := toDigits_length_three (n / 10)
    rw [toDigits_step n (by omega)]
    simp only [List.length_append, List.length_singleton]
    omega

/-! ## The path model -/

theorem toString_nat_data (n : Nat) : (toString n).data = Nat.toDigits 10 n := rfl

theorem toString_int_ofNat (n : Nat) : toString (Int.ofNat n) = toString n := rfl

theorem pad_data (n : Nat) (h : n < 100) :
    (pad n).data.length = 2 ∧ ∀ c ∈ (pad n).data, c.isDigit = true ∧ c ≠ '-' := by
  unfold pad
  by_cases h10 : n < 10
  · simp only [h10, if_true, String.data_append, toString_nat_data, toDigits_small n h10]
    refine ⟨rfl, ?_⟩
    intro c hc
    have hc2 : c = '0' ∨ c = Nat.digitChar n := by simpa using hc
    rcases hc2 with hc2 | hc2
    · subst hc2; decide
    · subst hc2; exact digitChar_isDigit n h10
  · simp only [h10, if_false, String.data_append, toString_nat_data]
    refine ⟨?_, ?_⟩
    · have : (Nat.toDigits 10 n).length = 2 := (toDigits_length_two n).mpr ⟨by omega, h⟩
      simpa using this
    · intro c hc
      have hc2 : c ∈ Nat.toDigits 10 n := by simpa using hc
      exact toDigits_isDigit n c hc2

theorem isDateName_length (name : String) (h : isDateName name = true) :
    name.data.length = 10 := by
  unfold isDateName at h
  split at h
  · rename_i heq
    rw [heq]
    rfl
  · exact absurd h (by simp)

theorem isDateName_of_parts (ys ms ds : List Char) (hy : ys.length = 4) (hm : ms.length = 2)
    (hd : ds.length = 2) (hys : ∀ c ∈ ys, c.isDigit = true) (hms : ∀ c ∈ ms, c.isDigit = true)
    (hds : ∀ c ∈ ds, c.isDigit = true) :
    isDateName (String.mk (ys ++ '-' :: (ms ++ '-' :: ds))) = true := by
  match ys, hy, ms, hm, ds, hd with
  | [a, b, c, e], _, [f, g], _, [i, j], _ =>
    simp only [List.mem_cons, List.mem_singleton, forall_eq_or_imp, forall_eq,
      List.not_mem_nil, false_implies, implies_true, and_true] at hys hms hds
    simp [isDateName, hys.1, hys.2.1, hys.2.2.1, hys.2.2.2, hms.1, hms.2, hds.1, hds.2]

theorem ne_empty_of_data_length (s : String) (h : 1 ≤ s.data.length) : s ≠ "" := by
  intro hs
  subst hs
  simp at h

theorem formatDate_data (d : JsDate) :
    (formatDateYYYYMMDD d).data =
      (toString d.fullYear).data ++ '-' :: ((pad (d.month + 1)).data ++ '-' :: (pad d.date).data) := by
  simp [formatDateYYYYMMDD, String.data_append]

/-- Claim C6. For the date 2025-03-07 (`getFullYear()` 2025, `getMonth()` 2,
`getDate()` 7) and the root label "Daily Folder" the path model is exactly
"Daily Folder", "2025", "2025-03", "2025-03-07": the date string is the one
`formatDateYYYYMMDD` gives, and year and year-month are split off it the way
`gotoDateCollection` does. -/
theorem derivePath_example :
    formatDateYYYYMMDD ⟨2025, 2, 7⟩ = "2025-03-07" ∧
    derivePath ⟨2025, 2, 7⟩ "Daily Folder" =
      ["Daily Folder", "2025", "2025-03", "2025-03-07"] ∧
    pathSegments "Daily Folder" "2025-03-07" =
      ["Daily Folder", "2025", "2025-03", "2025-03-07"] := by
  decide

/-- Claim C7, amended. For every date with a non-negative year, a month
index below 12 and a day up to 31, and every non-empty root label, the path
model is the four non-empty strings root label, `Y`, `Y-M`, `Y-M-D`, where `Y`
is the plain decimal numeral of the year, without padding, and `M` and `D`
are month and day padded to two digits. `Y` has four digits, and the date
segment matches the pattern of four, two and two digits, exactly when the
year lies between 1000 and 9999. -/
theorem derivePath_format (d : JsDate) (rootLabel : String) (hy : 0 ≤ d.fullYear)
    (hm : d.month < 12) (hd : d.date ≤ 31) (hroot : rootLabel ≠ "") :
    derivePath d rootLabel =
      [rootLabel, toString d.fullYear, toString d.fullYear ++ "-" ++ pad (d.month + 1),
        toString d.fullYear ++ "-" ++ pad (d.month + 1) ++ "-" ++ pad d.date] ∧
    (∀ seg ∈ derivePath d rootLabel, seg ≠ "") ∧
    toString d.fullYear = toString d.fullYear.toNat ∧
    allDigits (toString d.fullYear) = true ∧
    ((pad (d.month + 1)).length = 2 ∧ allDigits (pad (d.month + 1)) = true) ∧
    ((pad d.date).length = 2 ∧ allDigits (pad d.date) = true) ∧
    ((toString d.fullYear).length = 4 ↔ 1000 ≤ d.fullYear ∧ d.fullYear ≤ 9999) ∧
    (isDateName (formatDateYYYYMMDD d) = true ↔ 1000 ≤ d.fullYear ∧ d.fullYear ≤ 9999) := by
  obtain ⟨n, hn⟩ := Int.eq_ofNat_of_zero_le hy
  have hY : toString d.fullYear = toString n := by rw [hn]; rfl
  have hYdata : (toString d.fullYear).data = Nat.toDigits 10 n := by rw [hY]; rfl
  obtain ⟨hMlen, hMdig⟩ := pad_data (d.month + 1) (by omega)
  obtain ⟨hDlen, hDdig⟩ := pad_data d.date (by omega)
  have hYdig := toDigits_isDigit n
  have hYdash : '-' ∉ (toString d.fullYear).data := by
    rw [hYdata]
    exact fun h => (hYdig _ h).2 rfl
  have hMdash : '-' ∉ (pad (d.month + 1)).data := fun h => (hMdig _ h).2 rfl
  have hpath : derivePath d rootLabel =
      [rootLabel, toString d.fullYear, toString d.fullYear ++ "-" ++ pad (d.month + 1),
        toString d.fullYear ++ "-" ++ pad (d.month + 1) ++ "-" ++ pad d.date] := by
    have h1 : yearOf (toString d.fullYear ++ "-" ++ pad (d.month + 1) ++ "-" ++ pad d.date) =
        toString d.fullYear := by
      have := yearOf_dashed (toString d.fullYear) (pad (d.month + 1) ++ "-" ++ pad d.date) hYdash
      simpa [String.append_assoc] using this
    have h2 := monthStrOf_dashed (toString d.fullYear) (pad (d.month + 1)) (pad d.date)
      hYdash hMdash
    simp only [derivePath, pathSegments, formatDateYYYYMMDD, h1, h2]
  have hlen4 : (toString d.fullYear).length = 4 ↔ 1000 ≤ d.fullYear ∧ d.fullYear ≤ 9999 := by
    have h4 := toDigits_length_four n
    have : (toString d.fullYear).length = (Nat.toDigits 10 n).length := by
      rw [String.length, hYdata]
    rw [this, h4, hn]
    omega
  refine ⟨hpath, ?_, ?_, ?_, ⟨hMlen, ?_⟩, ⟨hDlen, ?_⟩, hlen4, ?_⟩
  · rw [hpath]
    intro seg hseg
    simp only [List.mem_cons, List.mem_singleton, List.not_mem_nil, or_false] at hseg
    rcases hseg with h | h | h | h
    · rw [h]; exact hroot
    · rw [h]
      apply ne_empty_of_data_length
      rw [hYdata]
      exact toDigits_length_pos n
    · rw [h]
      apply ne_empty_of_data_length
      simp only [String.data_append, List.length_append]
      have : ("-" : String).data.length = 1 := rfl
      omega
    · rw [h]
      apply ne_empty_of_data_length
      simp only [String.data_append, List.length_append]
      have : ("-" : String).data.length = 1 := rfl
      omega
  · rw [hn]; rfl
  · simp only [allDigits, List.all_eq_true]
    rw [hYdata]
    exact fun c hc => (hYdig c hc).1
  · simp only [allDigits, List.all_eq_true]
    exact fun c hc => (hMdig c hc).1
  · simp only [allDigits, List.all_eq_true]
    exact fun c hc => (hDdig c hc).1
  · rw [← hlen4]
    constructor
    · intro h
      have hl := isDateName_length _ h
      rw [formatDate_data] at hl
      simp only [List.length_append, List.length_cons] at hl
      rw [String.length]
      omega
    · intro h
      have heq : formatDateYYYYMMDD d = String.mk ((toString d.fullYear).data ++
          '-' :: ((pad (d.month + 1)).data ++ '-' :: (pad d.date).data)) :=
        String.ext (formatDate_data d)
      rw [heq]
      apply isDateName_of_parts _ _ _ h hMlen hDlen
      · intro c hc
        exact (hYdig c (hYdata ▸ hc)).1
      · exact fun c hc => (hMdig c hc).1
      · exact fun c hc => (hDdig c hc).1

/-- Claim C7 as stated fails: for 1 January of the year 999 the year segment
is "999", three digits and not padded to "0999", and the date segment
"999-01-01" does not match the pattern of four, two and two digits. -/
theorem derivePath_counterexample :
    derivePath ⟨999, 0, 1⟩ "Daily Folder" = ["Daily Folder", "999", "999-01", "999-01-01"] ∧
    ("999" : String).length ≠ 4 ∧ isDateName (formatDateYYYYMMDD ⟨999, 0, 1⟩) = false := by
  decide

theorem derivePath_format_witness :
    derivePath ⟨2024, 11, 25⟩ "Daily Folder" =
      ["Daily Folder", toString (2024 : Int), toString (2024 : Int) ++ "-" ++ pad (11 + 1),
        toString (2024 : Int) ++ "-" ++ pad (11 + 1) ++ "-" ++ pad 25] ∧
    isDateName (formatDateYYYYMMDD ⟨2024, 11, 25⟩) = true :=
  ⟨(derivePath_format ⟨2024, 11, 25⟩ "Daily Folder" (by decide) (by decide) (by decide)
      (by decide)).1,
    ((derivePath_format ⟨2024, 11, 25⟩ "Daily Folder" (by decide) (by decide) (by decide)
      (by decide)).2.2.2.2.2.2.2).mpr (by decide)⟩

/-! ## `refreshExisting` -/

theorem setAdd_mem (set : List String) (name n : String) :
    n ∈ setAdd set name ↔ n ∈ set ∨ n = name := by
  unfold setAdd
  by_cases h : name ∈ set
  · simp only [h, if_true]
    constructor
    · exact Or.inl
    · rintro (h1 | h1)
      · exact h1
      · rw [h1]; exact h
  · simp [h]

theorem setAdd_nodup (set : List String) (name : String) (h : set.Nodup) :
    (setAdd set name).Nodup := by
  unfold setAdd
  by_cases hn : name ∈ set
  · simp [hn, h]
  · simp only [hn, if_false]
    rw [List.nodup_append]
    refine ⟨h, List.nodup_singleton _, ?_⟩
    intro a ha hb
    simp only [List.mem_singleton] at hb
    subst hb
    exact hn ha

theorem collectDays_mem (set : List String) (days : List Collection) (n : String) :
    n ∈ collectDays set days ↔
      n ∈ set ∨ ∃ d ∈ days, d.name = n ∧ isDateName n = true := by
  induction days generalizing set with
  | nil => simp [collectDays]
  | cons d rest ih =>
    simp only [collectDays]
    rw [ih]
    by_cases hd : isDateName d.name = true
    · simp only [hd, if_true, setAdd_mem, List.mem_cons, exists_eq_or_imp]
      constructor
      · rintro ((h | h) | h)
        · exact Or.inl h
        · exact Or.inr (Or.inl ⟨h.symm, h ▸ hd⟩)
        · exact Or.inr (Or.inr h)
      · rintro (h | ⟨h, -⟩ | h)
        · exact Or.inl (Or.inl h)
        · exact Or.inl (Or.inr h.symm)
        · exact Or.inr h
    · simp only [hd, List.mem_cons, exists_eq_or_imp]
      constructor
      · rintro (h | h)
        · exact Or.inl h
        · exact Or.inr (Or.inr h)
      · rintro (h | ⟨h1, h2⟩ | h)
        · exact Or.inl h
        · exact absurd (h1 ▸ h2) hd
        · exact Or.inr h

theorem collectDays_nodup (set : List String) (days : List Collection) (h : set.Nodup) :
    (collectDays set days).Nodup := by
  induction days generalizing set with
  | nil => simpa [collectDays] using h
  | cons d rest ih =>
    simp only [collectDays]
    apply ih
    split
    · exact setAdd_nodup set d.name h
    · exact h

theorem getChildCollections_noFault (s : Store) (c : Collection) (hf : s.faults = []) :
    getChildCollections s c =
      (.ok (s.colls.filter fun x => x.parentID = some c.id), { s with tick := s.tick + 1 }) := by
  simp [getChildCollections, hf]

theorem collectMonths_noFault (s : Store) (set : List String) (months : List Collection)
    (hf : s.faults = []) (hn : set.Nodup) :
    ∃ s1 set1, collectMonths s set months = (.ok (), s1, set1) ∧ s1.colls = s.colls ∧
      s1.faults = [] ∧ s1.saveCalls = s.saveCalls ∧ set1.Nodup ∧
      ∀ n, n ∈ set1 ↔ n ∈ set ∨ ∃ m ∈ months, ∃ d ∈ s.colls,
        d.parentID = some m.id ∧ d.name = n ∧ isDateName n = true := by
  induction months generalizing s set with
  | nil => exact ⟨s, set, rfl, rfl, hf, rfl, hn, by simp⟩
  | cons m rest ih =>
    obtain ⟨s1, set1, h1, h2, h3, h4, h5, h6⟩ :=
      ih { s with tick := s.tick + 1 }
        (collectDays set (s.colls.filter fun x => x.parentID = some m.id)) hf
        (collectDays_nodup _ _ hn)
    refine ⟨s1, set1, ?_, h2, h3, h4, h5, ?_⟩
    · simp only [collectMonths, getChildCollections_noFault s m hf, h1]
    · intro n
      rw [h6 n, collectDays_mem]
      simp only [List.mem_filter, decide_eq_true_eq, List.mem_cons, exists_eq_or_imp]
      constructor
      · rintro ((h | ⟨d, ⟨hd1, hd2⟩, hd3, hd4⟩) | h)
        · exact Or.inl h
        · exact Or.inr (Or.inl ⟨d, hd1, hd2, hd3, hd4⟩)
        · exact Or.inr (Or.inr h)
      · rintro (h | ⟨d, hd1, hd2, hd3, hd4⟩ | h)
        · exact Or.inl (Or.inl h)
        · exact Or.inl (Or.inr ⟨d, ⟨hd1, hd2⟩, hd3, hd4⟩)
        · exact Or.inr h

theorem collectYears_noFault (s : Store) (set : List String) (years : List Collection)
    (hf : s.faults = []) (hn : set.Nodup) :
    ∃ s1 set1, collectYears s set years = (.ok (), s1, set1) ∧ s1.colls = s.colls ∧
      s1.faults = [] ∧ s1.saveCalls = s.saveCalls ∧ set1.Nodup ∧
      ∀ n, n ∈ set1 ↔ n ∈ set ∨ ∃ y ∈ years, ∃ m ∈ s.colls, m.parentID = some y.id ∧
        ∃ d ∈ s.colls, d.parentID = some m.id ∧ d.name = n ∧ isDateName n = true := by
  induction years generalizing s set with
  | nil => exact ⟨s, set, rfl, rfl, hf, rfl, hn, by simp⟩
  | cons y rest ih =>
    obtain ⟨s1, set1, h1, h2, h3, h4, h5, h6⟩ :=
      collectMonths_noFault { s with tick := s.tick + 1 } set
        (s.colls.filter fun x => x.parentID = some y.id) hf hn
    obtain ⟨s2, set2, g1, g2, g3, g4, g5, g6⟩ := ih s1 set1 h3 h5
    refine ⟨s2, set2, ?_, g2.trans h2, g3, g4.trans h4, g5, ?_⟩
    · simp only [collectYears, getChildCollections_noFault s y hf, h1, g1]
    · intro n
      rw [g6 n, h6 n, h2]
      simp only [List.mem_filter, decide_eq_true_eq, List.mem_cons, exists_eq_or_imp]
      constructor
      · rintro ((h | ⟨m, ⟨hm1, hm2⟩, hd⟩) | h)
        · exact Or.inl h
        · exact Or.inr (Or.inl ⟨m, hm1, hm2, hd⟩)
        · exact Or.inr (Or.inr h)
      · rintro (h | ⟨m, hm1, hm2, hd⟩ | h)
        · exact Or.inl (Or.inl h)
        · exact Or.inl (Or.inr ⟨m, ⟨hm1, hm2⟩, hd⟩)
        · exact Or.inr h

/-- Claim C8. When the store holds a root (the first parentless collection of
the library that has the root name) and no store call fails,
`refreshExisting` leaves in `existingSet`, without repetition and whatever it
held before, exactly the names of the collections three levels below that
root (children of children of children) that match the date pattern; the
store keeps its collections. -/
theorem refreshExisting_third_level (win : Win) (existingSet : List String) (root : Collection)
    (hf : win.store.faults = [])
    (hroot : firstRoot win.store.colls win.rootName win.scope = some root) :
    (refreshExisting win existingSet).1.colls = win.store.colls ∧
    (refreshExisting win existingSet).2.Nodup ∧
    ∀ n, n ∈ (refreshExisting win existingSet).2 ↔
      ∃ y ∈ win.store.colls, y.parentID = some root.id ∧
        ∃ m ∈ win.store.colls, m.parentID = some y.id ∧
          ∃ d ∈ win.store.colls, d.parentID = some m.id ∧ d.name = n ∧
            isDateName n = true := by
  have hf0 : win.store.tick ∉ win.store.faults := by simp [hf]
  have hE := ensureCollection_found win.store win.rootName none win.scope root hf0 hroot
  have hf1 : ({ win.store with tick := win.store.tick + 1 } : Store).faults = [] := hf
  have hC := getChildCollections_noFault { win.store with tick := win.store.tick + 1 } root hf1
  obtain ⟨s3, set3, h1, h2, -, -, h5, h6⟩ :=
    collectYears_noFault
      { win.store with tick := win.store.tick + 1 + 1 } []
      (win.store.colls.filter fun x => x.parentID = some root.id) hf List.nodup_nil
  have hR : refreshExisting win existingSet = (s3, set3) := by
    simp only [refreshExisting, hE, hC, h1]
  rw [hR]
  refine ⟨h2, h5, ?_⟩
  intro n
  rw [h6 n]
  simp only [List.not_mem_nil, false_or, List.mem_filter, decide_eq_true_eq]
  constructor
  · rintro ⟨y, ⟨hy1, hy2⟩, h⟩
    exact ⟨y, hy1, hy2, h⟩
  · rintro ⟨y, hy1, hy2, h⟩
    exact ⟨y, ⟨hy1, hy2⟩, h⟩

theorem refreshExisting_third_level_witness :
    (refreshExisting notesWin ["1999-01-01"]).2 = ["2025-03-07"] ∧
    (refreshExisting notesWin ["1999-01-01"]).1.colls = notesWin.store.colls ∧
    (refreshExisting notesWin ["1999-01-01"]).2.Nodup ∧
    ∀ n, n ∈ (refreshExisting notesWin ["1999-01-01"]).2 ↔
      ∃ y ∈ notesWin.store.colls, y.parentID = some 1 ∧
        ∃ m ∈ notesWin.store.colls, m.parentID = some y.id ∧
          ∃ d ∈ notesWin.store.colls, d.parentID = some m.id ∧ d.name = n ∧
            isDateName n = true :=
  ⟨by decide,
    refreshExisting_third_level notesWin ["1999-01-01"] ⟨1, "Daily Folder", none, 1⟩ rfl
      (by decide)⟩

/-! ## Scanning the tree view -/

theorem select_getSelectedCollection (v : TreeView) (i : Nat) :
    (v.select i).getSelectedCollection = v.itemAt i := rfl

theorem findAndExpandLoop_some (name : String) (fuel : Nat) (v : TreeView) (i k : Nat)
    (v1 : TreeView) (h : findAndExpandLoop name fuel v i = (v1, some k)) :
    i ≤ k ∧ k < v.rowCount ∧ (∃ c, v.itemAt k = some c ∧ c.name = name) ∧
    (∀ j, i ≤ j → j < k → ∀ c, v.itemAt j = some c → c.name ≠ name) ∧
    v1 = v.matched k := by
  induction fuel generalizing v i with
  | zero => simp [findAndExpandLoop] at h
  | succ f ih =>
    unfold findAndExpandLoop at h
    by_cases hi : i < v.rowCount
    · simp only [hi, if_true, select_getSelectedCollection] at h
      cases hc : v.itemAt i with
      | none =>
        simp only [hc] at h
        obtain ⟨h1, h2, h3, h4, h5⟩ := ih (v.select i) (i + 1) h
        refine ⟨by omega, h2, h3, ?_, h5⟩
        intro j hj1 hj2 c hjc
        by_cases hji : j = i
        · subst hji
          have : v.itemAt j = none := hc
          rw [this] at hjc
          exact absurd hjc (by simp)
        · exact h4 j (by omega) hj2 c hjc
      | some item =>
        simp only [hc] at h
        by_cases hn : item.name = name
        · simp only [hn, if_true] at h
          have hk : i = k := by
            split at h <;> simp only [Prod.mk.injEq, Option.some.injEq] at h <;> exact h.2
          subst hk
          refine ⟨le_refl _, hi, ⟨item, hc, hn⟩, fun j h1 h2 => by omega, ?_⟩
          unfold TreeView.matched
          split at h
          · rename_i hcond
            have hcond2 : (v.isContainer i && !v.isContainerOpen i) = true := hcond
            simp only [hcond2, if_true]
            exact (Prod.mk.inj h).1.symm
          · rename_i hcond
            have hcond2 : ¬ (v.isContainer i && !v.isContainerOpen i) = true := hcond
            simp only [hcond2, if_false]
            exact (Prod.mk.inj h).1.symm
        · simp only [hn, if_false] at h
          obtain ⟨h1, h2, h3, h4, h5⟩ := ih (v.select i) (i + 1) h
          refine ⟨by omega, h2, h3, ?_, h5⟩
          intro j hj1 hj2 c hjc
          by_cases hji : j = i
          · subst hji
            have : v.itemAt j = some item := hc
            rw [this] at hjc
            simp only [Option.some.injEq] at hjc
            subst hjc
            exact hn
          · exact h4 j (by omega) hj2 c hjc
    · simp [hi] at h

theorem selectFinalLoop_true (name : String) (fuel : Nat) (v : TreeView) (i : Nat)
    (v1 : TreeView) (h : selectFinalLoop name fuel v i = (v1, true)) :
    ∃ k, i ≤ k ∧ k < v.rowCount ∧ (∃ c, v.itemAt k = some c ∧ c.name = name) ∧
      (∀ j, i ≤ j → j < k → ∀ c, v.itemAt j = some c → c.name ≠ name) ∧
      v1 = v.select k := by
  induction fuel generalizing v i with
  | zero => simp [selectFinalLoop] at h
  | succ f ih =>
    unfold selectFinalLoop at h
    by_cases hi : i < v.rowCount
    · simp only [hi, if_true, select_getSelectedCollection] at h
      cases hc : v.itemAt i with
      | none =>
        simp only [hc] at h
        obtain ⟨k, h1, h2, h3, h4, h5⟩ := ih (v.select i) (i + 1) h
        refine ⟨k, by omega, h2, h3, ?_, h5⟩
        intro j hj1 hj2 c hjc
        by_cases hji : j = i
        · subst hji
          have : v.itemAt j = none := hc
          rw [this] at hjc
          exact absurd hjc (by simp)
        · exact h4 j (by omega) hj2 c hjc
      | some item =>
        simp only [hc] at h
        by_cases hn : item.name = name
        · simp only [hn, if_true] at h
          exact ⟨i, le_refl _, hi, ⟨item, hc, hn⟩, fun j h1 h2 => by omega,
            (Prod.mk.inj h).1.symm⟩
        · simp only [hn, if_false] at h
          obtain ⟨k, h1, h2, h3, h4, h5⟩ := ih (v.select i) (i + 1) h
          refine ⟨k, by omega, h2, h3, ?_, h5⟩
          intro j hj1 hj2 c hjc
          by_cases hji : j = i
          · subst hji
            have : v.itemAt j = some item := hc
            rw [this] at hjc
            simp only [Option.some.injEq] at hjc
            subst hjc
            exact hn
          · exact h4 j (by omega) hj2 c hjc
    · simp [hi] at h

theorem toggleAt_map_item (hide : Option Nat) (rows : List Row) (i : Nat) :
    (toggleAt hide rows i).map Row.item = rows.map Row.item := by
  induction rows generalizing hide i with
  | nil => rfl
  | cons r rs ih =>
    unfold toggleAt
    split
    · simp only [List.map_cons, ih]
    · cases i with
      | zero => rfl
      | succ j => simp only [List.map_cons, ih]

theorem mem_of_mem_visible (hide : Option Nat) (rows : List Row) (r : Row)
    (h : r ∈ visible hide rows) : r ∈ rows := by
  induction rows generalizing hide with
  | nil => simp [visible] at h
  | cons a rs ih =>
    unfold visible at h
    split at h
    · exact List.mem_cons_of_mem _ (ih _ h)
    · rcases List.mem_cons.mp h with h1 | h1
      · rw [h1]; exact List.mem_cons_self _ _
      · exact List.mem_cons_of_mem _ (ih _ h1)

theorem holds_of_itemAt (v : TreeView) (k : Nat) (c : Collection) (h : v.itemAt k = some c) :
    v.holds c := by
  unfold TreeView.itemAt TreeView.row? at h
  cases hr : (visible none v.rows)[k]? with
  | none => simp [hr] at h
  | some r =>
    simp only [hr, Option.bind] at h
    have hmem : r ∈ visible none v.rows := List.getElem?_mem hr
    unfold TreeView.holds
    rw [List.mem_map]
    exact ⟨r, mem_of_mem_visible _ _ _ hmem, h⟩

theorem matched_holds (v : TreeView) (k : Nat) (c : Collection) :
    (v.matched k).holds c ↔ v.holds c := by
  unfold TreeView.matched TreeView.holds
  split
  · simp only [TreeView.toggleOpenState, TreeView.select, toggleAt_map_item]
  · simp only [TreeView.select]

theorem NamesIdentify.of_holds {v : TreeView} {chain : List Collection}
    (h : NamesIdentify v chain) (c : Collection) (hc : v.holds c) (k : Collection)
    (hk : k ∈ chain) (hn : c.name = k.name) : c.id = k.id := by
  unfold TreeView.holds at hc
  rw [List.mem_map] at hc
  obtain ⟨row, hrow, hitem⟩ := hc
  exact h row hrow c (by simp [hitem]) k hk hn

/-- Claim C9, amended. Whenever the navigation along a resolved path
`[r, y, m, d]` reports success, it returns `d`, and it matched four rows
`i0 < i1 < i2 < i3`: each is the first displayed row, from row 0 for the root
and from the row after the previous match for the others, whose collection
has the name of the segment; the date row `i3` is left selected. The matched
rows show the collections of the path themselves (same ids) when names
identify the chain among the rows of the tree. -/
theorem navigateToPath_success (v v4 : TreeView) (r y m d x : Collection)
    (h : navigateToPath v [r, y, m, d] = (v4, .ok (some x))) :
    x = d ∧ ∃ i0 i1 i2 i3 c0 c1 c2 c3 v1 v2 v3,
      i0 < i1 ∧ i1 < i2 ∧ i2 < i3 ∧
      v1 = v.matched i0 ∧ v2 = v1.matched i1 ∧ v3 = v2.matched i2 ∧ v4 = v3.select i3 ∧
      (v.itemAt i0 = some c0 ∧ c0.name = r.name ∧
        ∀ j, j < i0 → ∀ c, v.itemAt j = some c → c.name ≠ r.name) ∧
      (v1.itemAt i1 = some c1 ∧ c1.name = y.name ∧
        ∀ j, i0 < j → j < i1 → ∀ c, v1.itemAt j = some c → c.name ≠ y.name) ∧
      (v2.itemAt i2 = some c2 ∧ c2.name = m.name ∧
        ∀ j, i1 < j → j < i2 → ∀ c, v2.itemAt j = some c → c.name ≠ m.name) ∧
      (v3.itemAt i3 = some c3 ∧ c3.name = d.name ∧
        ∀ j, i2 < j → j < i3 → ∀ c, v3.itemAt j = some c → c.name ≠ d.name) ∧
      v4.selected = some i3 ∧ v4.getSelectedCollection = some c3 ∧
      (NamesIdentify v [r, y, m, d] →
        c0.id = r.id ∧ c1.id = y.id ∧ c2.id = m.id ∧ c3.id = d.id) := by
  unfold navigateToPath at h
  simp only at h
  rcases h0 : findAndExpandByName v r.name 0 with ⟨w1, _ | i0⟩
  · simp [h0] at h
  simp only [h0] at h
  rcases h1 : findAndExpandByName w1 y.name (i0 + 1) with ⟨w2, _ | i1⟩
  · simp [h1] at h
  simp only [h1] at h
  rcases h2 : findAndExpandByName w2 m.name (i1 + 1) with ⟨w3, _ | i2⟩
  · simp [h2] at h
  simp only [h2] at h
  rcases h3 : selectFinalLoop d.name (w3.rowCount - (i2 + 1)) w3 (i2 + 1) with ⟨w4, _ | _⟩
  · simp [h3] at h
  simp only [h3, Prod.mk.injEq, Except.ok.injEq, Option.some.injEq] at h
  obtain ⟨hv4, hx⟩ := h
  subst hv4
  obtain ⟨a1, a2, ⟨c0, a3, a4⟩, a5, a6⟩ := findAndExpandLoop_some _ _ _ _ _ _ h0
  obtain ⟨b1, b2, ⟨c1, b3, b4⟩, b5, b6⟩ := findAndExpandLoop_some _ _ _ _ _ _ h1
  obtain ⟨e1, e2, ⟨c2, e3, e4⟩, e5, e6⟩ := findAndExpandLoop_some _ _ _ _ _ _ h2
  obtain ⟨i3, f1, f2, ⟨c3, f3, f4⟩, f5, f6⟩ := selectFinalLoop_true _ _ _ _ _ h3
  refine ⟨hx.symm, i0, i1, i2, i3, c0, c1, c2, c3, w1, w2, w3, by omega, by omega, by omega,
    a6, b6, e6, f6, ⟨a3, a4, fun j hj => a5 j (Nat.zero_le _) hj⟩,
    ⟨b3, b4, fun j hj => b5 j (by omega)⟩, ⟨e3, e4, fun j hj => e5 j (by omega)⟩,
    ⟨f3, f4, fun j hj => f5 j (by omega)⟩, by rw [f6]; rfl, ?_, ?_⟩
  · rw [f6, select_getSelectedCollection]
    exact f3
  · intro hN
    have g0 : v.holds c0 := holds_of_itemAt v i0 c0 a3
    have g1 : v.holds c1 := by
      have := holds_of_itemAt w1 i1 c1 b3
      rw [a6] at this
      exact (matched_holds v i0 c1).mp this
    have g2 : v.holds c2 := by
      have := holds_of_itemAt w2 i2 c2 e3
      rw [b6, a6] at this
      exact (matched_holds v i0 c2).mp ((matched_holds _ i1 c2).mp this)
    have g3 : v.holds c3 := by
      have := holds_of_itemAt w3 i3 c3 f3
      rw [e6, b6, a6] at this
      exact (matched_holds v i0 c3).mp ((matched_holds _ i1 c3).mp
        ((matched_holds _ i2 c3).mp this))
    exact ⟨hN.of_holds c0 g0 r (by simp) a4, hN.of_holds c1 g1 y (by simp) b4,
      hN.of_holds c2 g2 m (by simp) e4, hN.of_holds c3 g3 d (by simp) f4⟩

/-- Claim C9 as stated fails: with a second collection named like the root
label earlier in the tree, the navigation for the chain of library 2 reports
success and returns the resolved date collection 8, but the root scan matched
row 0, which shows collection 1 and not the resolved root 5, and the row left
selected shows collection 4 of library 1, not collection 8. -/
theorem navigate_counterexample :
    (findCollectionPath twinWin.store "Daily Folder" "2025-03-07" 2).1 =
      .ok (some [⟨5, "Daily Folder", none, 2⟩, ⟨6, "2025", some 5, 2⟩,
        ⟨7, "2025-03", some 6, 2⟩, ⟨8, "2025-03-07", some 7, 2⟩]) ∧
    (gotoDateCollection twinWin "2025-03-07" false).result =
      .ok (some ⟨8, "2025-03-07", some 7, 2⟩) ∧
    (gotoDateCollection twinWin "2025-03-07" false).view.bind TreeView.getSelectedCollection =
      some ⟨4, "2025-03-07", some 3, 1⟩ ∧
    (twinWin.activePane.bind Pane.collectionsView).map
        (fun view => (findAndExpandByName view "Daily Folder" 0).2) = some (some 0) ∧
    (twinWin.activePane.bind Pane.collectionsView).bind (fun view => view.itemAt 0) =
      some ⟨1, "Daily Folder", none, 1⟩ := by
  decide

theorem navigateToPath_success_witness :
    navigateToPath xmasView (xmasChain 7) =
      (⟨xmasRows 7 true true true false false, some 3⟩,
        .ok (some ⟨4, "2024-12-25", some 3, 7⟩)) ∧
    NamesIdentify xmasView (xmasChain 7) ∧
    ∃ c3, TreeView.getSelectedCollection ⟨xmasRows 7 true true true false false, some 3⟩ =
      some c3 ∧ c3.id = 4 := by
  refine ⟨by decide, by decide, ?_⟩
  obtain ⟨-, i0, i1, i2, i3, c0, c1, c2, c3, v1, v2, v3, -, -, -, -, -, -, -, -, -, -, -, -,
      hsel, hid⟩ :=
    navigateToPath_success xmasView ⟨xmasRows 7 true true true false false, some 3⟩
      ⟨1, "Daily Folder", none, 7⟩ ⟨2, "2024", some 1, 7⟩ ⟨3, "2024-12", some 2, 7⟩
      ⟨4, "2024-12-25", some 3, 7⟩ ⟨4, "2024-12-25", some 3, 7⟩ (by decide)
  exact ⟨c3, hsel, (hid (by decide)).2.2.2⟩

/-! ## `gotoDateCollection` absorbs every error -/

theorem findCollectionPath_some_shape (s : Store) (rootName dateStr : String) (libraryID : Nat)
    (p : List Collection)
    (h : (findCollectionPath s rootName dateStr libraryID).1 = .ok (some p)) :
    ∃ r y m d, p = [r, y, m, d] := by
  have h4 := (findCollectionPath_spec s rootName dateStr libraryID).2.2.2.1 (some p) h
  obtain ⟨r, y, m, d, hl, -⟩ := findPath_sound h4.symm
  exact ⟨r, y, m, d, hl⟩

theorem resolveCollectionPath_some_shape (s : Store) (rootName dateStr : String)
    (libraryID : Nat) (createIfMissing : Bool) (p : List Collection)
    (h : (resolveCollectionPath s rootName dateStr libraryID createIfMissing).1 =
      .ok (some p)) :
    ∃ r y m d, p = [r, y, m, d] := by
  unfold resolveCollectionPath at h
  rcases hF : findCollectionPath s rootName dateStr libraryID with ⟨res, s1⟩
  rw [hF] at h
  cases res with
  | error e => simp at h
  | ok o =>
    cases o with
    | some q =>
      simp only [Except.ok.injEq, Option.some.injEq] at h
      subst h
      exact findCollectionPath_some_shape s rootName dateStr libraryID q (by rw [hF])
    | none =>
      simp only at h
      cases createIfMissing with
      | false => simp at h
      | true =>
        simp only [if_true] at h
        rcases h1 : ensureCollection s1 rootName none libraryID with ⟨_ | rootColl, s2⟩
        · simp [h1] at h
        simp only [h1] at h
        rcases h2 : ensureCollection s2 (yearOf dateStr) (some rootColl.id) libraryID with
          ⟨_ | yearColl, s3⟩
        · simp [h2] at h
        simp only [h2] at h
        rcases h3 : ensureCollection s3 (monthStrOf dateStr) (some yearColl.id) libraryID with
          ⟨_ | monthColl, s4⟩
        · simp [h3] at h
        simp only [h3] at h
        rcases h4 : ensureCollection s4 dateStr (some monthColl.id) libraryID with
          ⟨_ | dayColl, s5⟩
        · simp [h4] at h
        simp only [h4] at h
        exact findCollectionPath_some_shape s5 rootName dateStr libraryID p h

theorem navigateToPath_result (v : TreeView) (r y m d : Collection) :
    (navigateToPath v [r, y, m, d]).2 = .ok none ∨
    (navigateToPath v [r, y, m, d]).2 = .ok (some d) := by
  unfold navigateToPath
  simp only
  rcases findAndExpandByName v r.name 0 with ⟨w1, _ | i0⟩
  · exact Or.inl rfl
  simp only
  rcases findAndExpandByName w1 y.name (i0 + 1) with ⟨w2, _ | i1⟩
  · exact Or.inl rfl
  simp only
  rcases findAndExpandByName w2 m.name (i1 + 1) with ⟨w3, _ | i2⟩
  · exact Or.inl rfl
  simp only
  rcases selectFinalLoop d.name (w3.rowCount - (i2 + 1)) w3 (i2 + 1) with ⟨w4, _ | _⟩
  · exact Or.inl rfl
  · exact Or.inr rfl

theorem gotoDateTry_result (win : Win) (dateStr : String) (createIfMissing : Bool) :
    (gotoDateTry win dateStr createIfMissing).result = .ok none ∨
    (∃ e, (gotoDateTry win dateStr createIfMissing).result = .error e) ∨
    ∃ r y m d,
      (resolveCollectionPath win.store win.rootName dateStr win.scope createIfMissing).1 =
        .ok (some [r, y, m, d]) ∧
      (gotoDateTry win dateStr createIfMissing).result = .ok (some d) := by
  cases hp : win.activePane with
  | none => simp [gotoDateTry, hp]
  | some pane =>
    cases hv : pane.collectionsView with
    | none => simp [gotoDateTry, hp, hv]
    | some view =>
      have hscope : win.scope = pane.libraryID win.userLibraryID := by
        simp [Win.scope, hp]
      rw [hscope]
      simp only [gotoDateTry, hp, hv]
      rcases hR : resolveCollectionPath win.store win.rootName dateStr
        (pane.libraryID win.userLibraryID) createIfMissing with ⟨res, s1⟩
      cases res with
      | error e => exact Or.inr (Or.inl ⟨e, rfl⟩)
      | ok o =>
        cases o with
        | none => exact Or.inl rfl
        | some p =>
          obtain ⟨r, y, m, d, hl⟩ := resolveCollectionPath_some_shape win.store win.rootName
            dateStr (pane.libraryID win.userLibraryID) createIfMissing p (by rw [hR])
          subst hl
          simp only
          rcases navigateToPath_result view r y m d with hn | hn
          · exact Or.inl hn
          · exact Or.inr (Or.inr ⟨r, y, m, d, rfl, hn⟩)

/-- Claim C10. For every window (store, failures of the store calls, tree
view), date string and `createIfMissing` flag, `gotoDateCollection` ends
without an error: its result is nothing or the day collection of the path of
four that the resolution produced; every error the `try` block raises,
whether from a query or from `saveTx`, ends as the result nothing. -/
theorem gotoDate_never_throws (win : Win) (dateStr : String) (createIfMissing : Bool) :
    ((gotoDateCollection win dateStr createIfMissing).result = .ok none ∨
      ∃ r y m d,
        (resolveCollectionPath win.store win.rootName dateStr win.scope createIfMissing).1 =
          .ok (some [r, y, m, d]) ∧
        (gotoDateCollection win dateStr createIfMissing).result = .ok (some d)) ∧
    (∀ e, (gotoDateTry win dateStr createIfMissing).result = .error e →
      (gotoDateCollection win dateStr createIfMissing).result = .ok none) := by
  constructor
  · unfold gotoDateCollection
    rcases gotoDateTry_result win dateStr createIfMissing with h | ⟨e, h⟩ | ⟨r, y, m, d, h1, h2⟩
    · rw [h]; exact Or.inl rfl
    · rw [h]; exact Or.inl rfl
    · rw [h2]; exact Or.inr ⟨r, y, m, d, h1, rfl⟩
  · intro e he
    unfold gotoDateCollection
    rw [he]

/-- Runs of the `try` block that throw: a query that fails inside
`findCollectionPath`, and a `saveTx` that fails inside `ensureCollection`;
`gotoDateCollection` returns nothing in both. -/
theorem gotoDate_absorbs_throw_examples :
    (gotoDateTry missWin "2025-03-07" true).result = .error "getChildCollections failed" ∧
    (gotoDateCollection missWin "2025-03-07" true).result = .ok none ∧
    (gotoDateTry saveFailWin "2025-03-07" true).result =
      .error "无法创建 collection: 2025" ∧
    (gotoDateCollection saveFailWin "2025-03-07" true).result = .ok none ∧
    (gotoDateCollection saveFailWin "2025-03-07" true).store.colls =
      [⟨1, "Daily Folder", none, 1⟩] := by
  decide

/-! ## Errors of `ensureCollection` -/

theorem createCollection_eq (s : Store) (name : String) (parentID : Option Nat)
    (libraryID : Nat) :
    createCollection s name parentID libraryID =
      if s.tick ∈ s.faults then
        (.error ("无法创建 collection: " ++ name),
          { s with tick := s.tick + 1, saveCalls := s.saveCalls + 1 })
      else
        (.ok ⟨freshId s.colls, name, parentID, libraryID⟩,
          ⟨s.colls ++ [⟨freshId s.colls, name, parentID, libraryID⟩], s.tick + 1, s.faults,
            s.saveCalls + 1⟩) := by
  unfold createCollection saveTx
  by_cases h : s.tick ∈ s.faults
  · simp only [h, if_true]
  · simp only [h, if_false]

theorem ensureCollection_lookup_throws (s : Store) (name : String) (parentID : Option Nat)
    (libraryID : Nat) (hf : s.tick ∈ s.faults) :
    ensureCollection s name parentID libraryID =
      createCollection { s with tick := s.tick + 1 } name parentID libraryID := by
  unfold ensureCollection lookupSiblings
  cases parentID with
  | none => simp only [getByLibrary, hf, if_true]
  | some p => simp only [getByParent, hf, if_true]

theorem ensureCollection_not_found (s : Store) (name : String) (parentID : Option Nat)
    (libraryID : Nat) (hf : s.tick ∉ s.faults)
    (h : firstSibling s.colls name parentID libraryID = none) :
    ensureCollection s name parentID libraryID =
      createCollection { s with tick := s.tick + 1 } name parentID libraryID := by
  obtain ⟨collections, h1, h2⟩ := lookupSiblings_find? s name parentID libraryID hf
  unfold ensureCollection
  rw [h1]
  simp only [h2, h]

/-- Claim C11. `ensureCollection` raises an error exactly when it reaches the
create step, because the lookup threw or found no sibling of that name, and
the `saveTx` of the create step fails. The error carries the name of the
collection. A lookup that throws does not surface: `saveTx` is still called
once, and when it succeeds the new collection is returned. -/
theorem ensureCollection_error_iff (s : Store) (name : String) (parentID : Option Nat)
    (libraryID : Nat) :
    ((∃ e, (ensureCollection s name parentID libraryID).1 = .error e) ↔
      (s.tick ∈ s.faults ∨ firstSibling s.colls name parentID libraryID = none) ∧
        s.tick + 1 ∈ s.faults) ∧
    (∀ e, (ensureCollection s name parentID libraryID).1 = .error e →
      e = "无法创建 collection: " ++ name) ∧
    (s.tick ∈ s.faults →
      (ensureCollection s name parentID libraryID).2.saveCalls = s.saveCalls + 1) ∧
    (s.tick ∈ s.faults → s.tick + 1 ∉ s.faults →
      ensureCollection s name parentID libraryID =
        (.ok ⟨freshId s.colls, name, parentID, libraryID⟩,
          ⟨s.colls ++ [⟨freshId s.colls, name, parentID, libraryID⟩], s.tick + 1 + 1, s.faults,
            s.saveCalls + 1⟩)) := by
  by_cases hf : s.tick ∈ s.faults
  · rw [ensureCollection_lookup_throws s name parentID libraryID hf, createCollection_eq]
    by_cases h1 : s.tick + 1 ∈ s.faults
    · simp [hf, h1]
    · simp [hf, h1]
  · cases h : firstSibling s.colls name parentID libraryID with
    | some e0 =>
      rw [ensureCollection_found s name parentID libraryID e0 hf h]
      simp [hf]
    | none =>
      rw [ensureCollection_not_found s name parentID libraryID hf h, createCollection_eq]
      by_cases h1 : s.tick + 1 ∈ s.faults
      · simp [hf, h1]
      · simp [hf, h1]

/-- Runs of `ensureCollection` on the store whose first call throws: the
lookup of "2025" throws and a second "2025" is created; and on the store
whose lookup and `saveTx` both throw, the error names the collection. -/
theorem ensureCollection_error_examples :
    (ensureCollection lenientStore "2025" (some 1) 1).1 = .ok ⟨3, "2025", some 1, 1⟩ ∧
    (ensureCollection { lenientStore with faults := [0, 1] } "2025" (some 1) 1).1 =
      .error "无法创建 collection: 2025" ∧
    (ensureCollection { lenientStore with faults := [1] } "2024" (some 1) 1).1 =
      .error "无法创建 collection: 2024" ∧
    (ensureCollection { lenientStore with faults := [1] } "2025" (some 1) 1).1 =
      .ok ⟨2, "2025", some 1, 1⟩ := by
  decide

/-! ## One scan of `findAndExpandByName` -/

theorem findAndExpandLoop_none (name : String) (fuel : Nat) (v : TreeView) (i : Nat)
    (v1 : TreeView) (hfuel : v.rowCount ≤ i + fuel)
    (h : findAndExpandLoop name fuel v i = (v1, none)) :
    v1 = (if i < v.rowCount then v.select (v.rowCount - 1) else v) ∧
    ∀ j, i ≤ j → j < v.rowCount → ∀ c, v.itemAt j = some c → c.name ≠ name := by
  induction fuel generalizing v i with
  | zero =>
    have hi : ¬ i < v.rowCount := by omega
    simp only [findAndExpandLoop, Prod.mk.injEq, and_true] at h
    simp only [hi, if_false]
    exact ⟨h.symm, fun j h1 h2 => by omega⟩
  | succ f ih =>
    unfold findAndExpandLoop at h
    by_cases hi : i < v.rowCount
    · simp only [hi, if_true, select_getSelectedCollection] at h ⊢
      have hrec : findAndExpandLoop name f (v.select i) (i + 1) = (v1, none) ∧
          ∀ c, v.itemAt i = some c → c.name ≠ name := by
        cases hc : v.itemAt i with
        | none =>
          simp only [hc] at h
          exact ⟨h, fun c hc2 => absurd hc2 (by simp)⟩
        | some item =>
          simp only [hc] at h
          by_cases hn : item.name = name
          · simp only [hn, if_true] at h
            split at h <;> simp at h
          · simp only [hn, if_false] at h
            refine ⟨h, fun c hc2 => ?_⟩
            simp only [Option.some.injEq] at hc2
            subst hc2
            exact hn
      obtain ⟨h1, h2⟩ := ih (v.select i) (i + 1) (by
        have : (v.select i).rowCount = v.rowCount := rfl
        omega) hrec.1
      have hrc : (v.select i).rowCount = v.rowCount := rfl
      rw [hrc] at h1
      constructor
      · rw [h1]
        by_cases hi1 : i + 1 < v.rowCount
        · simp only [hi1, if_true]
          rfl
        · simp only [hi1, if_false]
          have : i = v.rowCount - 1 := by omega
          rw [← this]
      · intro j hj1 hj2 c hjc
        by_cases hji : j = i
        · subst hji
          exact hrec.2 c hjc
        · exact h2 j (by omega) hj2 c hjc
    · simp only [hi, if_false, Prod.mk.injEq, and_true] at h ⊢
      exact ⟨h.symm, fun j h1 h2 => by omega⟩

theorem keptOpen_refl (rs : List Row) : List.Forall₂ Row.keptOpen rs rs := by
  induction rs with
  | nil => exact List.Forall₂.nil
  | cons r rs ih => exact List.Forall₂.cons ⟨rfl, rfl, rfl, id⟩ ih

theorem toggleAt_keptOpen (hide : Option Nat) (rows : List Row) (i : Nat)
    (h : ∀ r, (visible hide rows)[i]? = some r → r.isOpen = false) :
    List.Forall₂ Row.keptOpen rows (toggleAt hide rows i) := by
  induction rows generalizing hide i with
  | nil => exact List.Forall₂.nil
  | cons r rs ih =>
    unfold toggleAt
    unfold visible at h
    by_cases hh : hiddenBy hide r.level = true
    · simp only [hh, if_true] at h ⊢
      exact List.Forall₂.cons ⟨rfl, rfl, rfl, id⟩ (ih hide i h)
    · simp only [hh] at h ⊢
      cases i with
      | zero =>
        have hr : r.isOpen = false := h r (by simp)
        refine List.Forall₂.cons ⟨rfl, rfl, rfl, ?_⟩ (keptOpen_refl rs)
        intro ho
        rw [hr] at ho
        exact absurd ho (by simp)
      | succ j =>
        refine List.Forall₂.cons ⟨rfl, rfl, rfl, id⟩ (ih _ j ?_)
        intro r2 hr2
        exact h r2 (by simpa using hr2)

theorem visible_toggleAt_self (hide : Option Nat) (rows : List Row) (i : Nat) (r : Row)
    (h : (visible hide rows)[i]? = some r) :
    (visible hide (toggleAt hide rows i))[i]? = some { r with isOpen := !r.isOpen } := by
  induction rows generalizing hide i with
  | nil => simp [visible] at h
  | cons a rs ih =>
    cases hh : hiddenBy hide a.level with
    | true =>
      simp only [visible, hh, if_true] at h
      simp only [toggleAt, visible, hh, if_true]
      exact ih hide i h
    | false =>
      simp only [visible, hh, Bool.false_eq_true, if_false] at h
      cases i with
      | zero =>
        have ha : a = r := by simpa using h
        subst ha
        simp [toggleAt, visible, hh]
      | succ j =>
        have h2 : (visible (if a.isOpen then none else some a.level) rs)[j]? = some r := by
          simpa using h
        simp only [toggleAt, visible, hh, Bool.false_eq_true, if_false]
        simpa using ih _ j h2

theorem matched_keptOpen (v : TreeView) (k : Nat) :
    List.Forall₂ Row.keptOpen v.rows (v.matched k).rows := by
  unfold TreeView.matched
  by_cases hc : (v.isContainer k && !v.isContainerOpen k) = true
  · simp only [hc, if_true, TreeView.toggleOpenState, TreeView.select]
    apply toggleAt_keptOpen
    intro r hr
    have hopen : v.isContainerOpen k = false := by
      simp only [Bool.and_eq_true, Bool.not_eq_true'] at hc
      exact hc.2
    have hrow : v.row? k = some r := hr
    simpa [TreeView.isContainerOpen, hrow] using hopen
  · simp only [hc, if_false, TreeView.select]
    exact keptOpen_refl v.rows

theorem matched_isContainerOpen (v : TreeView) (k : Nat) (h1 : v.isContainer k = true)
    (h2 : v.isContainerOpen k = false) : (v.matched k).isContainerOpen k = true := by
  unfold TreeView.matched
  simp only [h1, h2, Bool.not_false, Bool.and_self, if_true]
  cases hr : v.row? k with
  | none => simp [TreeView.isContainer, hr] at h1
  | some r =>
    have hopen : r.isOpen = false := by simpa [TreeView.isContainerOpen, hr] using h2
    have hnew := visible_toggleAt_self none v.rows k r hr
    have hrow : ((v.select k).toggleOpenState k).row? k = some { r with isOpen := !r.isOpen } :=
      hnew
    simp [TreeView.isContainerOpen, hrow, hopen]

/-- Claim C14. `findAndExpandByName(name, startIndex)` reports the index `i`
exactly when `i` is the least displayed row from `startIndex` on, below
`rowCount`, whose collection has the name; it reports not-found exactly when
no such row exists. On success it leaves row `i` selected and calls
`toggleOpenState(i)` exactly when row `i` is a container that is not open,
which opens it; it toggles no other row, and every row of the tree that was
open stays open. -/
theorem findAndExpandByName_spec (v : TreeView) (name : String) (startIndex : Nat) :
    (∀ i, (findAndExpandByName v name startIndex).2 = some i ↔
      startIndex ≤ i ∧ i < v.rowCount ∧ (∃ c, v.itemAt i = some c ∧ c.name = name) ∧
        ∀ j, startIndex ≤ j → j < i → ∀ c, v.itemAt j = some c → c.name ≠ name) ∧
    ((findAndExpandByName v name startIndex).2 = none ↔
      ∀ j, startIndex ≤ j → j < v.rowCount → ∀ c, v.itemAt j = some c → c.name ≠ name) ∧
    (∀ i, (findAndExpandByName v name startIndex).2 = some i →
      (findAndExpandByName v name startIndex).1 =
        (if v.isContainer i && !v.isContainerOpen i then (v.select i).toggleOpenState i
          else v.select i) ∧
      (v.isContainer i = true → v.isContainerOpen i = false →
        (findAndExpandByName v name startIndex).1.isContainerOpen i = true)) ∧
    ((findAndExpandByName v name startIndex).2 = none →
      (findAndExpandByName v name startIndex).1.rows = v.rows) ∧
    List.Forall₂ Row.keptOpen v.rows (findAndExpandByName v name startIndex).1.rows := by
  unfold findAndExpandByName
  rcases h : findAndExpandLoop name (v.rowCount - startIndex) v startIndex with ⟨v1, _ | k⟩
  · obtain ⟨h1, h2⟩ := findAndExpandLoop_none name _ v startIndex v1 (by omega) h
    have hrows : v1.rows = v.rows := by
      rw [h1]
      split <;> rfl
    refine ⟨?_, ?_, ?_, fun _ => hrows, ?_⟩
    · intro i
      constructor
      · intro hi
        exact absurd hi (by simp)
      · rintro ⟨a1, a2, ⟨c, a3, a4⟩, -⟩
        exact absurd a4 (h2 i a1 a2 c a3)
    · exact ⟨fun _ => h2, fun _ => rfl⟩
    · intro i hi
      exact absurd hi (by simp)
    · simp only [hrows]
      exact keptOpen_refl v.rows
  · obtain ⟨h1, h2, ⟨c, h3, h4⟩, h5, h6⟩ := findAndExpandLoop_some name _ v startIndex k v1 h
    refine ⟨?_, ?_, ?_, ?_, ?_⟩
    · intro i
      constructor
      · intro hi
        simp only [Option.some.injEq] at hi
        subst hi
        exact ⟨h1, h2, ⟨c, h3, h4⟩, h5⟩
      · rintro ⟨a1, a2, ⟨c2, a3, a4⟩, a5⟩
        simp only [Option.some.injEq]
        by_contra hne
        rcases Nat.lt_or_gt_of_ne hne with hlt | hgt
        · exact a5 k h1 hlt c h3 h4
        · exact h5 i a1 hgt c2 a3 a4
    · constructor
      · intro hn
        exact absurd hn (by simp)
      · intro hall
        exact absurd h4 (hall k h1 h2 c h3)
    · intro i hi
      simp only [Option.some.injEq] at hi
      subst hi
      refine ⟨h6, fun g1 g2 => ?_⟩
      simp only [h6]
      exact matched_isContainerOpen v k g1 g2
    · intro hn
      exact absurd hn (by simp)
    · simp only [h6]
      exact matched_keptOpen v k

/-- Scans of the tree of the two libraries: from row 0 the name "2025" is
found in row 1, from row 2 in row 5, and the name "2026" is not found. -/
theorem findAndExpandByName_examples :
    (twinWin.activePane.bind Pane.collectionsView).map
        (fun view => (findAndExpandByName view "2025" 0).2) = some (some 1) ∧
    (twinWin.activePane.bind Pane.collectionsView).map
        (fun view => (findAndExpandByName view "2025" 2).2) = some (some 5) ∧
    (twinWin.activePane.bind Pane.collectionsView).map
        (fun view => (findAndExpandByName view "2026" 0).2) = some none ∧
    (findAndExpandByName xmasView "Daily Folder" 0).1 =
      ⟨xmasRows 7 true false false false false, some 0⟩ := by
  decide

/-! ## A navigation that fails -/

theorem selectFinalLoop_false (name : String) (fuel : Nat) (v : TreeView) (i : Nat)
    (v1 : TreeView) (hfuel : v.rowCount ≤ i + fuel)
    (h : selectFinalLoop name fuel v i = (v1, false)) :
    v1 = (if i < v.rowCount then v.select (v.rowCount - 1) else v) ∧
    ∀ j, i ≤ j → j < v.rowCount → ∀ c, v.itemAt j = some c → c.name ≠ name := by
  induction fuel generalizing v i with
  | zero =>
    have hi : ¬ i < v.rowCount := by omega
    simp only [selectFinalLoop, Prod.mk.injEq, and_true] at h
    simp only [hi, if_false]
    exact ⟨h.symm, fun j h1 h2 => by omega⟩
  | succ f ih =>
    unfold selectFinalLoop at h
    by_cases hi : i < v.rowCount
    · simp only [hi, if_true, select_getSelectedCollection] at h ⊢
      have hrec : selectFinalLoop name f (v.select i) (i + 1) = (v1, false) ∧
          ∀ c, v.itemAt i = some c → c.name ≠ name := by
        cases hc : v.itemAt i with
        | none =>
          simp only [hc] at h
          exact ⟨h, fun c hc2 => absurd hc2 (by simp)⟩
        | some item =>
          simp only [hc] at h
          by_cases hn : item.name = name
          · simp [hn] at h
          · simp only [hn, if_false] at h
            refine ⟨h, fun c hc2 => ?_⟩
            simp only [Option.some.injEq] at hc2
            subst hc2
            exact hn
      obtain ⟨h1, h2⟩ := ih (v.select i) (i + 1) (by
        have : (v.select i).rowCount = v.rowCount := rfl
        omega) hrec.1
      have hrc : (v.select i).rowCount = v.rowCount := rfl
      rw [hrc] at h1
      constructor
      · rw [h1]
        by_cases hi1 : i + 1 < v.rowCount
        · simp only [hi1, if_true]
          rfl
        · simp only [hi1, if_false]
          have : i = v.rowCount - 1 := by omega
          rw [← this]
      · intro j hj1 hj2 c hjc
        by_cases hji : j = i
        · subst hji
          exact hrec.2 c hjc
        · exact h2 j (by omega) hj2 c hjc
    · simp only [hi, if_false, Prod.mk.injEq, and_true] at h ⊢
      exact ⟨h.symm, fun j h1 h2 => by omega⟩

theorem matched_selected (v : TreeView) (k : Nat) : (v.matched k).selected = some k := by
  unfold TreeView.matched
  split <;> rfl

theorem matched_rowCount_gt (v : TreeView) (k : Nat) (h : k < v.rowCount) :
    k < (v.matched k).rowCount := by
  unfold TreeView.matched
  split
  · have hk : k < (visible none v.rows).length := h
    have hr : (visible none v.rows)[k]? = some ((visible none v.rows)[k]) :=
      List.getElem?_eq_getElem hk
    have hnew := visible_toggleAt_self none v.rows k _ hr
    have hlt := (List.getElem?_eq_some.mp hnew).1
    exact hlt
  · exact h

theorem selected_after_failed_scan (w v4 : TreeView) (k : Nat) (hk : k < w.rowCount)
    (hsel : w.selected = some k)
    (h : v4 = (if k + 1 < w.rowCount then w.select (w.rowCount - 1) else w)) :
    k < v4.rowCount ∧ v4.selected = some (v4.rowCount - 1) ∧
      (v4.selected = some k ↔ k + 1 = v4.rowCount) := by
  by_cases hlt : k + 1 < w.rowCount
  · simp only [hlt, if_true] at h
    have hrc : v4.rowCount = w.rowCount := by rw [h]; rfl
    have hs : v4.selected = some (w.rowCount - 1) := by rw [h]; rfl
    rw [hrc, hs]
    refine ⟨hk, rfl, ?_⟩
    simp only [Option.some.injEq]
    omega
  · simp only [hlt, if_false] at h
    subst h
    rw [hsel]
    refine ⟨hk, ?_, ?_⟩
    · simp only [Option.some.injEq]
      omega
    · simp only [true_iff]
      omega

/-- Claim C13, amended. When the navigation matched the root and then did not
find a later level, it reports failure, and the row left selected is the last
displayed row of the tree, because the failing scan selects every row from
the one after the last match to the end. The row `k` of the last matched
segment stays selected exactly when it is that last row. -/
theorem navigateToPath_failure (v v4 : TreeView) (r y m d : Collection) (k : Nat)
    (h : FailedAfter v r y m d v4 k) :
    navigateToPath v [r, y, m, d] = (v4, .ok none) ∧ k < v4.rowCount ∧
    v4.selected = some (v4.rowCount - 1) ∧ (v4.selected = some k ↔ k + 1 = v4.rowCount) := by
  obtain ⟨v1, i0, h0, hrest⟩ := h
  obtain ⟨-, a2, -, -, a6⟩ := findAndExpandLoop_some _ _ _ _ _ _ h0
  have hk0 : i0 < v1.rowCount := by rw [a6]; exact matched_rowCount_gt v i0 a2
  have hs0 : v1.selected = some i0 := by rw [a6]; exact matched_selected v i0
  rcases hrest with ⟨hk, h1⟩ | ⟨v2, i1, h1, hrest⟩
  · subst hk
    obtain ⟨b1, -⟩ := findAndExpandLoop_none _ _ _ _ _ (by omega) h1
    refine ⟨?_, selected_after_failed_scan v1 v4 k hk0 hs0 b1⟩
    simp only [navigateToPath, h0, h1]
  obtain ⟨-, b2, -, -, b6⟩ := findAndExpandLoop_some _ _ _ _ _ _ h1
  have hk1 : i1 < v2.rowCount := by rw [b6]; exact matched_rowCount_gt v1 i1 b2
  have hs1 : v2.selected = some i1 := by rw [b6]; exact matched_selected v1 i1
  rcases hrest with ⟨hk, h2⟩ | ⟨v3, i2, h2, hk, h3⟩
  · subst hk
    obtain ⟨e1, -⟩ := findAndExpandLoop_none _ _ _ _ _ (by omega) h2
    refine ⟨?_, selected_after_failed_scan v2 v4 k hk1 hs1 e1⟩
    simp only [navigateToPath, h0, h1, h2]
  obtain ⟨-, e2, -, -, e6⟩ := findAndExpandLoop_some _ _ _ _ _ _ h2
  have hk2 : i2 < v3.rowCount := by rw [e6]; exact matched_rowCount_gt v2 i2 e2
  have hs2 : v3.selected = some i2 := by rw [e6]; exact matched_selected v2 i2
  subst hk
  obtain ⟨f1, -⟩ := selectFinalLoop_false _ _ _ _ _ (by omega) h3
  refine ⟨?_, selected_after_failed_scan v3 v4 k hk2 hs2 f1⟩
  simp only [navigateToPath, h0, h1, h2, h3]

/-- Claim C13 as stated fails: in the tree that shows the root with the
child "misc", the root is matched in row 0, the scan for the year 2025 finds
nothing, and the navigation reports failure with row 1, the row of "misc",
left selected and not row 0 of the root. -/
theorem navigate_failure_counterexample :
    findAndExpandByName strayView "Daily Folder" 0 =
      (⟨strayView.rows, some 0⟩, some 0) ∧
    findAndExpandByName ⟨strayView.rows, some 0⟩ "2025" 1 =
      (⟨strayView.rows, some 1⟩, none) ∧
    navigateToPath strayView chainStore.colls = (⟨strayView.rows, some 1⟩, .ok none) ∧
    TreeView.getSelectedCollection ⟨strayView.rows, some 1⟩ = some ⟨9, "misc", some 1, 1⟩ := by
  decide

theorem navigateToPath_failure_witness :
    FailedAfter strayView ⟨1, "Daily Folder", none, 1⟩ ⟨2, "2025", some 1, 1⟩
      ⟨3, "2025-03", some 2, 1⟩ ⟨4, "2025-03-07", some 3, 1⟩ ⟨strayView.rows, some 1⟩ 0 ∧
    navigateToPath strayView [⟨1, "Daily Folder", none, 1⟩, ⟨2, "2025", some 1, 1⟩,
      ⟨3, "2025-03", some 2, 1⟩, ⟨4, "2025-03-07", some 3, 1⟩] =
      (⟨strayView.rows, some 1⟩, .ok none) ∧
    TreeView.selected ⟨strayView.rows, some 1⟩ =
      some (TreeView.rowCount ⟨strayView.rows, some 1⟩ - 1) :=
  have hfail : FailedAfter strayView ⟨1, "Daily Folder", none, 1⟩ ⟨2, "2025", some 1, 1⟩
      ⟨3, "2025-03", some 2, 1⟩ ⟨4, "2025-03-07", some 3, 1⟩ ⟨strayView.rows, some 1⟩ 0 :=
    ⟨⟨strayView.rows, some 0⟩, 0, by decide, Or.inl ⟨rfl, by decide⟩⟩
  ⟨hfail, (navigateToPath_failure _ _ _ _ _ _ _ hfail).1,
    (navigateToPath_failure _ _ _ _ _ _ _ hfail).2.2.1⟩

/-! ## `refreshExisting` when a query throws -/

theorem setAdd_extends (set : List String) (name : String) : set <+: setAdd set name := by
  unfold setAdd
  split
  · exact List.prefix_refl set
  · exact List.prefix_append set [name]

theorem collectDays_extends (set : List String) (days : List Collection) :
    set <+: collectDays set days := by
  induction days generalizing set with
  | nil => exact List.prefix_refl set
  | cons d rest ih =>
    simp only [collectDays]
    split
    · exact (setAdd_extends set d.name).trans (ih _)
    · exact ih _

theorem collectMonths_prefix_self (s : Store) (set : List String) (months : List Collection) :
    set <+: (collectMonths s set months).2.2 := by
  induction months generalizing s set with
  | nil => exact List.prefix_refl set
  | cons m rest ih =>
    simp only [collectMonths, getChildCollections]
    by_cases hf : s.tick ∈ s.faults
    · simp only [hf, if_true]
      exact List.prefix_refl set
    · simp only [hf, if_false]
      exact (collectDays_extends set _).trans (ih _ _)

theorem collectMonths_colls (s : Store) (set : List String) (months : List Collection) :
    (collectMonths s set months).2.1.colls = s.colls := by
  induction months generalizing s set with
  | nil => rfl
  | cons m rest ih =>
    simp only [collectMonths, getChildCollections]
    by_cases hf : s.tick ∈ s.faults
    · simp only [hf, if_true]
    · simp only [hf, if_false]
      exact ih _ _

theorem collectMonths_partial (s t : Store) (set : List String) (months : List Collection)
    (hc : s.colls = t.colls) (ht : t.faults = []) :
    (collectMonths s set months).2.2 <+: (collectMonths t set months).2.2 ∧
    ((collectMonths s set months).1 = .ok () →
      (collectMonths s set months).2.2 = (collectMonths t set months).2.2) := by
  induction months generalizing s t set with
  | nil => exact ⟨List.prefix_refl set, fun _ => rfl⟩
  | cons m rest ih =>
    have htf : t.tick ∉ t.faults := by simp [ht]
    simp only [collectMonths, getChildCollections, htf, if_false]
    by_cases hf : s.tick ∈ s.faults
    · simp only [hf, if_true]
      refine ⟨(collectDays_extends set _).trans (collectMonths_prefix_self _ _ _), ?_⟩
      intro h
      exact absurd h (by simp)
    · simp only [hf, if_false, hc]
      exact ih ⟨t.colls, s.tick + 1, s.faults, s.saveCalls⟩ { t with tick := t.tick + 1 } _
        rfl ht

theorem collectYears_prefix_self (s : Store) (set : List String) (years : List Collection) :
    set <+: (collectYears s set years).2.2 := by
  induction years generalizing s set with
  | nil => exact List.prefix_refl set
  | cons y rest ih =>
    simp only [collectYears, getChildCollections]
    by_cases hf : s.tick ∈ s.faults
    · simp only [hf, if_true]
      exact List.prefix_refl set
    · simp only [hf, if_false]
      have hm := collectMonths_prefix_self { s with tick := s.tick + 1 } set
        (s.colls.filter fun c => c.parentID = some y.id)
      rcases hM : collectMonths { s with tick := s.tick + 1 } set
        (s.colls.filter fun c => c.parentID = some y.id) with ⟨res, s2, set2⟩
      rw [hM] at hm
      cases res with
      | error e => exact hm
      | ok u => exact hm.trans (ih s2 set2)

theorem collectMonths_ok (t : Store) (set : List String) (months : List Collection)
    (ht : t.faults = []) :
    (collectMonths t set months).1 = .ok () ∧ (collectMonths t set months).2.1.faults = [] := by
  induction months generalizing t set with
  | nil => exact ⟨rfl, ht⟩
  | cons m rest ih =>
    have htf : t.tick ∉ t.faults := by simp [ht]
    simp only [collectMonths, getChildCollections, htf, if_false]
    exact ih { t with tick := t.tick + 1 } _ ht

theorem collectYears_partial (s t : Store) (set : List String) (years : List Collection)
    (hc : s.colls = t.colls) (ht : t.faults = []) :
    (collectYears s set years).2.2 <+: (collectYears t set years).2.2 := by
  induction years generalizing s t set with
  | nil => exact List.prefix_refl set
  | cons y rest ih =>
    by_cases hf : s.tick ∈ s.faults
    · have hl : (collectYears s set (y :: rest)).2.2 = set := by
        simp only [collectYears, getChildCollections, hf, if_true]
      rw [hl]
      exact collectYears_prefix_self t set (y :: rest)
    · have htf : t.tick ∉ t.faults := by simp [ht]
      have ht1 : ({ t with tick := t.tick + 1 } : Store).faults = [] := ht
      obtain ⟨hok, hfaults⟩ := collectMonths_ok { t with tick := t.tick + 1 } set
        (t.colls.filter fun c => c.parentID = some y.id) ht1
      have hcolls := collectMonths_colls { t with tick := t.tick + 1 } set
        (t.colls.filter fun c => c.parentID = some y.id)
      obtain ⟨hpre, heq⟩ := collectMonths_partial ⟨t.colls, s.tick + 1, s.faults, s.saveCalls⟩
        { t with tick := t.tick + 1 } set (t.colls.filter fun c => c.parentID = some y.id)
        rfl ht1
      have hscolls := collectMonths_colls ⟨t.colls, s.tick + 1, s.faults, s.saveCalls⟩ set
        (t.colls.filter fun c => c.parentID = some y.id)
      simp only [collectYears, getChildCollections, hf, htf, if_false, hc]
      rcases hT : collectMonths { t with tick := t.tick + 1 } set
        (t.colls.filter fun c => c.parentID = some y.id) with ⟨rest2, t2, full2⟩
      rcases hS : collectMonths ⟨t.colls, s.tick + 1, s.faults, s.saveCalls⟩ set
        (t.colls.filter fun c => c.parentID = some y.id) with ⟨res, s2, set2⟩
      rw [hT] at hok hfaults hcolls hpre heq
      rw [hS] at hpre heq hscolls
      simp only at hok hfaults hcolls hpre heq hscolls
      subst hok
      cases res with
      | error e =>
        exact hpre.trans (collectYears_prefix_self t2 full2 rest)
      | ok u =>
        have hset : set2 = full2 := heq rfl
        subst hset
        exact ih s2 t2 set2 (hscolls.trans hcolls.symm) hfaults

theorem collectDays_append (set : List String) (a b : List Collection) :
    collectDays set (a ++ b) = collectDays (collectDays set a) b := by
  induction a generalizing set with
  | nil => rfl
  | cons d rest ih =>
    simp only [List.cons_append, collectDays]
    exact ih _

theorem callsBeforeThrow_le (faults : List Nat) (start n : Nat) :
    callsBeforeThrow faults start n ≤ n := by
  induction n generalizing start with
  | zero => simp [callsBeforeThrow]
  | succ n ih =>
    unfold callsBeforeThrow
    split
    · omega
    · have := ih (start + 1)
      omega

theorem callsBeforeThrow_succ (faults : List Nat) (start n : Nat) :
    callsBeforeThrow faults start (n + 1) =
      if start ∈ faults then 0 else callsBeforeThrow faults (start + 1) n + 1 := rfl

theorem callsBeforeThrow_add (faults : List Nat) (start a b : Nat) :
    callsBeforeThrow faults start (a + b) =
      if callsBeforeThrow faults start a = a then a + callsBeforeThrow faults (start + a) b
      else callsBeforeThrow faults start a := by
  induction a generalizing start with
  | zero => simp [callsBeforeThrow]
  | succ a ih =>
    have hab : a + 1 + b = (a + b) + 1 := by omega
    rw [hab, callsBeforeThrow_succ faults start (a + b), callsBeforeThrow_succ faults start a]
    by_cases hf : start ∈ faults
    · simp [hf]
    · simp only [hf, if_false]
      rw [ih (start + 1)]
      have hs : start + 1 + a = start + (a + 1) := by omega
      by_cases hk : callsBeforeThrow faults (start + 1) a = a
      · simp only [hk, if_true, hs]
        omega
      · have hk2 : ¬ callsBeforeThrow faults (start + 1) a + 1 = a + 1 := by omega
        simp only [hk, hk2, if_false]

theorem callsBeforeThrow_first (faults : List Nat) (start n j : Nat) (hj : j < n)
    (hok : ∀ i, i < j → start + i ∉ faults) (hthrow : start + j ∈ faults) :
    callsBeforeThrow faults start n = j := by
  induction n generalizing start j with
  | zero => omega
  | succ n ih =>
    unfold callsBeforeThrow
    cases j with
    | zero =>
      have : start ∈ faults := by simpa using hthrow
      simp [this]
    | succ j =>
      have h0 : start ∉ faults := by simpa using hok 0 (by omega)
      simp only [h0, if_false]
      have := ih (start + 1) j (by omega)
        (fun i hi => by
          have := hok (i + 1) (by omega)
          have e : start + 1 + i = start + (i + 1) := by omega
          rw [e]
          exact this)
        (by
          have e : start + 1 + j = start + (j + 1) := by omega
          rw [e]
          exact hthrow)
      omega

theorem monthQueries_length (cs months : List Collection) :
    (monthQueries cs months).length = months.length := by
  simp [monthQueries]

theorem collectMonths_exact (s : Store) (set : List String) (months : List Collection) :
    (collectMonths s set months).2.2 =
      collectDays set ((monthQueries s.colls months).take
        (callsBeforeThrow s.faults s.tick months.length)).flatten ∧
    ((collectMonths s set months).1 = .ok () ↔
      callsBeforeThrow s.faults s.tick months.length = months.length) ∧
    ((collectMonths s set months).1 = .ok () →
      (collectMonths s set months).2.1.tick = s.tick + months.length) ∧
    (collectMonths s set months).2.1.faults = s.faults := by
  induction months generalizing s set with
  | nil => simp [collectMonths, callsBeforeThrow, monthQueries, collectDays]
  | cons m rest ih =>
    rw [List.length_cons, callsBeforeThrow_succ]
    by_cases hf : s.tick ∈ s.faults
    · simp [collectMonths, getChildCollections, hf, collectDays]
    · obtain ⟨h1, h2, h3, h4⟩ := ih { s with tick := s.tick + 1 }
        (collectDays set (s.colls.filter fun c => c.parentID = some m.id))
      simp only [collectMonths, getChildCollections, hf, if_false]
      refine ⟨?_, ?_, ?_, h4⟩
      · rw [h1]
        simp only [monthQueries, List.map_cons, List.take_succ_cons, List.flatten_cons,
          collectDays_append]
      · rw [h2]
        constructor
        · intro h; simp only [h]
        · intro h; simpa using h
      · intro hok
        have := h3 hok
        simp only at this ⊢
        omega

theorem yearQueries_cons (cs : List Collection) (y : Collection) (rest : List Collection) :
    yearQueries cs (y :: rest) =
      [] :: (monthQueries cs (cs.filter fun c => c.parentID = some y.id) ++
        yearQueries cs rest) := rfl

theorem collectYears_exact (s : Store) (set : List String) (years : List Collection) :
    (collectYears s set years).2.2 =
      collectDays set ((yearQueries s.colls years).take
        (callsBeforeThrow s.faults s.tick (yearQueries s.colls years).length)).flatten ∧
    ((collectYears s set years).1 = .ok () ↔
      callsBeforeThrow s.faults s.tick (yearQueries s.colls years).length =
        (yearQueries s.colls years).length) := by
  induction years generalizing s set with
  | nil => simp [collectYears, callsBeforeThrow, yearQueries, collectDays]
  | cons y rest ih =>
    rw [yearQueries_cons, List.length_cons, callsBeforeThrow_succ]
    by_cases hf : s.tick ∈ s.faults
    · simp [collectYears, getChildCollections, hf, collectDays]
    · obtain ⟨m1, m2, m3, m4⟩ := collectMonths_exact { s with tick := s.tick + 1 } set
        (s.colls.filter fun c => c.parentID = some y.id)
      have mc := collectMonths_colls { s with tick := s.tick + 1 } set
        (s.colls.filter fun c => c.parentID = some y.id)
      have hle := callsBeforeThrow_le s.faults (s.tick + 1)
        (s.colls.filter fun c => c.parentID = some y.id).length
      have hlen := monthQueries_length s.colls (s.colls.filter fun c => c.parentID = some y.id)
      simp only [collectYears, getChildCollections, hf, if_false]
      rw [List.length_append, hlen, callsBeforeThrow_add]
      rcases hM : collectMonths { s with tick := s.tick + 1 } set
        (s.colls.filter fun c => c.parentID = some y.id) with ⟨res, s2, set2⟩
      rw [hM] at m1 m2 m3 m4 mc
      simp only at m1 m2 m3 m4 mc
      cases res with
      | error e =>
        have hne : ¬ callsBeforeThrow s.faults (s.tick + 1)
            (s.colls.filter fun c => c.parentID = some y.id).length =
            (s.colls.filter fun c => c.parentID = some y.id).length := by
          intro h
          have := m2.mpr h
          exact absurd this (by simp)
        simp only [hne, if_false, List.take_succ_cons, List.flatten_cons, List.nil_append]
        constructor
        · rw [m1, List.take_append_of_le_length (by rw [hlen]; exact hle)]
        · constructor
          · intro h
            exact absurd h (by simp)
          · intro h
            have := callsBeforeThrow_le s.faults (s.tick + 1)
              (s.colls.filter fun c => c.parentID = some y.id).length
            omega
      | ok u =>
        have hk := m2.mp rfl
        have htick := m3 rfl
        obtain ⟨g1, g2⟩ := ih s2 set2
        rw [mc, m4, htick] at g1 g2
        simp only [hk, if_true]
        constructor
        · rw [g1, m1, hk]
          have e1 : s.tick + 1 + (s.colls.filter fun c => c.parentID = some y.id).length =
              s.tick + 1 + (s.colls.filter fun c => c.parentID = some y.id).length := rfl
          rw [List.take_succ_cons, List.flatten_cons, List.nil_append,
            List.take_append_eq_append_take, List.flatten_append, collectDays_append]
          have t1 : List.take ((s.colls.filter fun c => c.parentID = some y.id).length +
              callsBeforeThrow s.faults
                (s.tick + 1 + (s.colls.filter fun c => c.parentID = some y.id).length)
                (yearQueries s.colls rest).length)
              (monthQueries s.colls (s.colls.filter fun c => c.parentID = some y.id)) =
              monthQueries s.colls (s.colls.filter fun c => c.parentID = some y.id) := by
            apply List.take_of_length_le
            rw [hlen]
            omega
          have t2 : List.take (s.colls.filter fun c => c.parentID = some y.id).length
              (monthQueries s.colls (s.colls.filter fun c => c.parentID = some y.id)) =
              monthQueries s.colls (s.colls.filter fun c => c.parentID = some y.id) := by
            apply List.take_of_length_le
            rw [hlen]
          rw [t1, t2, hlen]
          congr 3
          omega
        · rw [g2]
          constructor
          · intro h; omega
          · intro h; omega

theorem refreshExisting_initial_part (win : Win) (existingSet : List String)
    (root : Collection) (hf : win.store.tick ∉ win.store.faults)
    (hroot : firstRoot win.store.colls win.rootName win.scope = some root) :
    (refreshExisting win existingSet).2 <+: (refreshExisting win.calm existingSet).2 ∧
    (∀ n ∈ (refreshExisting win existingSet).2,
      ∃ y ∈ win.store.colls, y.parentID = some root.id ∧
        ∃ m ∈ win.store.colls, m.parentID = some y.id ∧
          ∃ d ∈ win.store.colls, d.parentID = some m.id ∧ d.name = n ∧
            isDateName n = true) ∧
    (win.store.tick + 1 ∈ win.store.faults → (refreshExisting win existingSet).2 = []) := by
  have hE := ensureCollection_found win.store win.rootName none win.scope root hf hroot
  have hcf : win.calm.store.faults = [] := rfl
  have hcf0 : win.calm.store.tick ∉ win.calm.store.faults := by simp [hcf]
  have hEc := ensureCollection_found win.calm.store win.calm.rootName none win.calm.scope root
    hcf0 hroot
  have hCc := getChildCollections_noFault { win.calm.store with tick := win.calm.store.tick + 1 }
    root hcf
  obtain ⟨s3, set3, h1, -, -, -, -, h6⟩ :=
    collectYears_noFault
      { win.calm.store with tick := win.calm.store.tick + 1 + 1 } []
      (win.store.colls.filter fun x => x.parentID = some root.id) hcf List.nodup_nil
  have hRc : refreshExisting win.calm existingSet = (s3, set3) := by
    simp only [refreshExisting, hEc, hCc]
    exact congrArg (fun p : Except String Unit × Store × List String => (p.2.1, p.2.2)) h1
  have hpre : (refreshExisting win existingSet).2 <+: set3 := by
    by_cases hf1 : win.store.tick + 1 ∈ win.store.faults
    · have : (refreshExisting win existingSet).2 = [] := by
        simp only [refreshExisting, hE, getChildCollections, hf1, if_true]
      rw [this]
      exact List.nil_prefix
    · have hpart := collectYears_partial
        { win.store with tick := win.store.tick + 1 + 1 }
        { win.calm.store with tick := win.calm.store.tick + 1 + 1 } []
        (win.store.colls.filter fun x => x.parentID = some root.id) rfl hcf
      rw [h1] at hpart
      have : (refreshExisting win existingSet).2 =
          (collectYears { win.store with tick := win.store.tick + 1 + 1 } []
            (win.store.colls.filter fun x => x.parentID = some root.id)).2.2 := by
        simp only [refreshExisting, hE, getChildCollections, hf1, if_false]
      rw [this]
      exact hpart
  refine ⟨by rw [hRc]; exact hpre, ?_, ?_⟩
  · intro n hn
    have hn3 : n ∈ set3 := hpre.subset hn
    have := (h6 n).mp hn3
    simp only [List.not_mem_nil, false_or, List.mem_filter, decide_eq_true_eq] at this
    obtain ⟨y, ⟨hy1, hy2⟩, h⟩ := this
    exact ⟨y, hy1, hy2, h⟩
  · intro hf1
    simp only [refreshExisting, hE, getChildCollections, hf1, if_true]

theorem collectDays_eq_nil_iff (days : List Collection) :
    collectDays [] days = [] ↔ ∀ d ∈ days, isDateName d.name = false := by
  rw [List.eq_nil_iff_forall_not_mem]
  constructor
  · intro h d hd
    cases hn : isDateName d.name with
    | false => rfl
    | true =>
      exact absurd ((collectDays_mem [] days d.name).mpr (Or.inr ⟨d, hd, rfl, hn⟩)) (h d.name)
  · intro h n hn
    rcases (collectDays_mem [] days n).mp hn with h1 | ⟨d, hd, hdn, hdate⟩
    · exact absurd h1 (List.not_mem_nil n)
    · have := h d hd
      rw [hdn, hdate] at this
      exact absurd this (by simp)

theorem refreshExisting_exact (win : Win) (existingSet : List String) (root : Collection)
    (hf : win.store.tick ∉ win.store.faults)
    (hroot : firstRoot win.store.colls win.rootName win.scope = some root) :
    (refreshExisting win existingSet).2 =
      collectDays [] ((traversalQueries win.store.colls root).take
        (callsBeforeThrow win.store.faults (win.store.tick + 1)
          (traversalQueries win.store.colls root).length)).flatten := by
  have hE := ensureCollection_found win.store win.rootName none win.scope root hf hroot
  unfold traversalQueries
  rw [List.length_cons, callsBeforeThrow_succ]
  by_cases hf1 : win.store.tick + 1 ∈ win.store.faults
  · simp [refreshExisting, hE, getChildCollections, hf1, collectDays]
  · have hx := (collectYears_exact { win.store with tick := win.store.tick + 1 + 1 } []
      (win.store.colls.filter fun x => x.parentID = some root.id)).1
    simp only [refreshExisting, hE, getChildCollections, hf1, if_false, List.take_succ_cons,
      List.flatten_cons, List.nil_append]
    exact hx

/-- Claim C12, amended. When the root is found, `refreshExisting` keeps the
date names it collected before a child query throws. The child queries of
the traversal are those of `traversalQueries`, made one store call after the
other: when the query number `j` is the first that throws, the set the call
leaves is exactly the set collected from the day lists of the queries before
it, in collection order, and it is empty exactly when none of those days has
a date name. So the set is an initial part of the set the same call leaves
in the store without failures, every name in it is the name of a collection
three levels below the root that matches the date pattern, and it is empty
when the first child query, the one of the root, throws. -/
theorem refreshExisting_keeps_collected (win : Win) (existingSet : List String)
    (root : Collection) (hf : win.store.tick ∉ win.store.faults)
    (hroot : firstRoot win.store.colls win.rootName win.scope = some root) :
    (∀ j, j < (traversalQueries win.store.colls root).length →
      (∀ i, i < j → win.store.tick + 1 + i ∉ win.store.faults) →
      win.store.tick + 1 + j ∈ win.store.faults →
        (refreshExisting win existingSet).2 =
          collectDays [] ((traversalQueries win.store.colls root).take j).flatten ∧
        ((refreshExisting win existingSet).2 = [] ↔
          ∀ d ∈ ((traversalQueries win.store.colls root).take j).flatten,
            isDateName d.name = false)) ∧
    (refreshExisting win existingSet).2 =
      collectDays [] ((traversalQueries win.store.colls root).take
        (callsBeforeThrow win.store.faults (win.store.tick + 1)
          (traversalQueries win.store.colls root).length)).flatten ∧
    (refreshExisting win existingSet).2 <+: (refreshExisting win.calm existingSet).2 ∧
    (∀ n ∈ (refreshExisting win existingSet).2,
      ∃ y ∈ win.store.colls, y.parentID = some root.id ∧
        ∃ m ∈ win.store.colls, m.parentID = some y.id ∧
          ∃ d ∈ win.store.colls, d.parentID = some m.id ∧ d.name = n ∧
            isDateName n = true) ∧
    (win.store.tick + 1 ∈ win.store.faults → (refreshExisting win existingSet).2 = []) := by
  have hexact := refreshExisting_exact win existingSet root hf hroot
  obtain ⟨h1, h2, h3⟩ := refreshExisting_initial_part win existingSet root hf hroot
  refine ⟨?_, hexact, h1, h2, h3⟩
  intro j hj hok hthrow
  have hk := callsBeforeThrow_first win.store.faults (win.store.tick + 1)
    (traversalQueries win.store.colls root).length j hj hok hthrow
  rw [hk] at hexact
  refine ⟨hexact, ?_⟩
  rw [hexact]
  exact collectDays_eq_nil_iff _

/-- Claim C12 as stated fails: the child query of the year 2025 throws after
the year 2024 was traversed, and the set keeps "2024-01-05", collected
before the error; without the failure the set is "2024-01-05", "2025-03-07". -/
theorem refreshExisting_counterexample :
    (collectYears ⟨partialWin.store.colls, 2, [4], 0⟩ []
      [⟨2, "2024", some 1, 1⟩, ⟨5, "2025", some 1, 1⟩]).1 =
      .error "getChildCollections failed" ∧
    (refreshExisting partialWin []).2 = ["2024-01-05"] ∧
    (refreshExisting partialWin.calm []).2 = ["2024-01-05", "2025-03-07"] := by
  decide

theorem refreshExisting_keeps_collected_witness :
    partialWin.store.tick ∉ partialWin.store.faults ∧
    firstRoot partialWin.store.colls partialWin.rootName partialWin.scope =
      some ⟨1, "Daily Folder", none, 1⟩ ∧
    (refreshExisting partialWin ["1999-01-01"]).2 =
      collectDays [] ((traversalQueries partialWin.store.colls
        ⟨1, "Daily Folder", none, 1⟩).take 3).flatten ∧
    collectDays [] ((traversalQueries partialWin.store.colls
        ⟨1, "Daily Folder", none, 1⟩).take 3).flatten = ["2024-01-05"] ∧
    (refreshExisting partialWin ["1999-01-01"]).2 <+:
      (refreshExisting partialWin.calm ["1999-01-01"]).2 :=
  ⟨by decide, by decide,
    ((refreshExisting_keeps_collected partialWin ["1999-01-01"] ⟨1, "Daily Folder", none, 1⟩
      (by decide) (by decide)).1 3 (by decide) (by decide) (by decide)).1,
    by decide,
    (refreshExisting_keeps_collected partialWin ["1999-01-01"] ⟨1, "Daily Folder", none, 1⟩
      (by decide) (by decide)).2.2.1⟩

/-! ## The root of `refreshExisting` -/

theorem freshId_gt (cs : List Collection) : ∀ q ∈ cs, q.id < freshId cs := by
  induction cs with
  | nil => intro q hq; simp at hq
  | cons a rest ih =>
    intro q hq
    have hstep : freshId (a :: rest) = max a.id (freshId rest - 1) + 1 := by
      simp [freshId]
    rw [hstep]
    rcases List.mem_cons.mp hq with h | h
    · rw [h]
      have := Nat.le_max_left a.id (freshId rest - 1)
      omega
    · have h1 := ih q h
      have := Nat.le_max_right a.id (freshId rest - 1)
      omega

theorem collectMonths_saveCalls (s : Store) (set : List String) (months : List Collection) :
    (collectMonths s set months).2.1.saveCalls = s.saveCalls := by
  induction months generalizing s set with
  | nil => rfl
  | cons m rest ih =>
    simp only [collectMonths, getChildCollections]
    by_cases hf : s.tick ∈ s.faults
    · simp only [hf, if_true]
    · simp only [hf, if_false]
      exact ih _ _

theorem collectYears_frame (s : Store) (set : List String) (years : List Collection) :
    (collectYears s set years).2.1.colls = s.colls ∧
    (collectYears s set years).2.1.saveCalls = s.saveCalls := by
  induction years generalizing s set with
  | nil => exact ⟨rfl, rfl⟩
  | cons y rest ih =>
    simp only [collectYears, getChildCollections]
    by_cases hf : s.tick ∈ s.faults
    · simp only [hf, if_true, and_self]
    · simp only [hf, if_false]
      have hc := collectMonths_colls { s with tick := s.tick + 1 } set
        (s.colls.filter fun c => c.parentID = some y.id)
      have hs := collectMonths_saveCalls { s with tick := s.tick + 1 } set
        (s.colls.filter fun c => c.parentID = some y.id)
      rcases hM : collectMonths { s with tick := s.tick + 1 } set
        (s.colls.filter fun c => c.parentID = some y.id) with ⟨res, s2, set2⟩
      rw [hM] at hc hs
      cases res with
      | error e => exact ⟨hc, hs⟩
      | ok u =>
        obtain ⟨g1, g2⟩ := ih s2 set2
        exact ⟨g1.trans hc, g2.trans hs⟩

theorem refreshExisting_frame_of_root (win : Win) (existingSet : List String)
    (root : Collection) (s1 : Store)
    (hE : ensureCollection win.store win.rootName none win.scope = (.ok root, s1)) :
    (refreshExisting win existingSet).1.colls = s1.colls ∧
    (refreshExisting win existingSet).1.saveCalls = s1.saveCalls := by
  simp only [refreshExisting, hE, getChildCollections]
  by_cases hf : s1.tick ∈ s1.faults
  · simp only [hf, if_true, and_self]
  · simp only [hf, if_false]
    exact collectYears_frame _ _ _

theorem ensureCollection_creates (s : Store) (name : String) (parentID : Option Nat)
    (libraryID : Nat) (h : firstSibling s.colls name parentID libraryID = none)
    (hf1 : s.tick + 1 ∉ s.faults) :
    ensureCollection s name parentID libraryID =
      (.ok ⟨freshId s.colls, name, parentID, libraryID⟩,
        ⟨s.colls ++ [⟨freshId s.colls, name, parentID, libraryID⟩], s.tick + 1 + 1, s.faults,
          s.saveCalls + 1⟩) := by
  by_cases hf : s.tick ∈ s.faults
  · rw [ensureCollection_lookup_throws s name parentID libraryID hf, createCollection_eq]
    simp only [hf1, if_false]
  · exact ensureCollection_created s name parentID libraryID hf hf1 h

/-- Claim C15, amended. `refreshExisting` resolves the root with
`ensureCollection`. When the library holds no parentless collection of the
root name and the `saveTx` succeeds, one call persists exactly one new
collection, parentless, of the root name, in that library, and leaves the
empty set, given that no collection of the store names a parent that is not
persisted. When such a root exists and its lookup does not throw, the call
persists nothing and does not call `saveTx`. -/
theorem refreshExisting_root (win : Win) (existingSet : List String) :
    (firstRoot win.store.colls win.rootName win.scope = none →
      win.store.tick + 1 ∉ win.store.faults →
        (refreshExisting win existingSet).1.colls =
          win.store.colls ++ [⟨freshId win.store.colls, win.rootName, none, win.scope⟩] ∧
        (refreshExisting win existingSet).1.saveCalls = win.store.saveCalls + 1 ∧
        (ParentsPersisted win.store.colls → (refreshExisting win existingSet).2 = [])) ∧
    (∀ root, firstRoot win.store.colls win.rootName win.scope = some root →
      win.store.tick ∉ win.store.faults →
        (refreshExisting win existingSet).1.colls = win.store.colls ∧
        (refreshExisting win existingSet).1.saveCalls = win.store.saveCalls) := by
  constructor
  · intro hnone hf1
    have hE := ensureCollection_creates win.store win.rootName none win.scope hnone hf1
    obtain ⟨g1, g2⟩ := refreshExisting_frame_of_root win existingSet _ _ hE
    refine ⟨g1, g2, ?_⟩
    intro hP
    have hyears : (win.store.colls ++
        [(⟨freshId win.store.colls, win.rootName, none, win.scope⟩ : Collection)]).filter
        (fun c => c.parentID = some (freshId win.store.colls)) = [] := by
      rw [List.filter_eq_nil_iff]
      intro c hc
      simp only [decide_eq_true_eq]
      intro hpar
      rcases List.mem_append.mp hc with hc1 | hc1
      · obtain ⟨q, hq, hqid⟩ := hP c hc1 (freshId win.store.colls) (by simp [hpar])
        have := freshId_gt win.store.colls q hq
        omega
      · simp only [List.mem_singleton] at hc1
        rw [hc1] at hpar
        exact absurd hpar (by simp)
    simp only [refreshExisting, hE, getChildCollections]
    by_cases hf2 : win.store.tick + 1 + 1 ∈ win.store.faults
    · simp only [hf2, if_true]
    · simp only [hf2, if_false, hyears, collectYears]
  · intro root hroot hf
    have hE := ensureCollection_found win.store win.rootName none win.scope root hf hroot
    have hframe := refreshExisting_frame_of_root win existingSet root
      { win.store with tick := win.store.tick + 1 } hE
    exact ⟨hframe.1, hframe.2⟩

/-- Claim C15 as stated fails: the store holds the root, the lookup of
`ensureCollection` throws, and `refreshExisting` persists a second
parentless "Daily Folder". -/
theorem refreshExisting_root_counterexample :
    firstRoot rootLookupFailWin.store.colls rootLookupFailWin.rootName rootLookupFailWin.scope =
      some ⟨1, "Daily Folder", none, 1⟩ ∧
    (refreshExisting rootLookupFailWin []).1.colls =
      [⟨1, "Daily Folder", none, 1⟩, ⟨2, "Daily Folder", none, 1⟩] ∧
    (refreshExisting rootLookupFailWin []).1.saveCalls = 1 := by
  decide

theorem refreshExisting_root_witness :
    firstRoot noRootWin.store.colls noRootWin.rootName noRootWin.scope = none ∧
    ParentsPersisted noRootWin.store.colls ∧
    (refreshExisting noRootWin ["1999-01-01"]).1.colls =
      noRootWin.store.colls ++ [⟨3, "Daily Folder", none, 1⟩] ∧
    (refreshExisting noRootWin ["1999-01-01"]).2 = [] ∧
    (refreshExisting notesWin []).1.colls = notesWin.store.colls :=
  ⟨by decide, by decide,
    ((refreshExisting_root noRootWin ["1999-01-01"]).1 (by decide) (by decide)).1,
    ((refreshExisting_root noRootWin ["1999-01-01"]).1 (by decide) (by decide)).2.2
      (by decide),
    ((refreshExisting_root notesWin []).2 ⟨1, "Daily Folder", none, 1⟩ (by decide)
      (by decide)).1⟩

end DailyFolder
